import Mathlib

/-!
Verification of the capability registry, dispatch and rendering core of the
`mcp-ollama-python` server (`src/mcp_ollama_python/`), as a shallow embedding.

Python values flowing through the renderer are modelled by `JVal` together
with an explicit heap: every Python `dict` / `list` is heap-allocated and a
value refers to it through its identity (`JVal.ref`), which is exactly what
`id(obj)` inspects in `json_to_markdown`'s cycle detection.  Scalars
(`None`, booleans, `int`s, strings) are immediate.  Python floats are
carried symbolically as the literal they were parsed from (`JVal.pyfloat`);
no claim exercises float formatting.
-/

namespace McpOllama

/-- Model of a Python JSON-like value.  Composites live in a heap so that
object identity (Python `id`) and cyclic structures are expressible. -/
inductive JVal where
  | null
  | bool (b : Bool)
  | num (n : Int)
  | pyfloat (lit : String)
  | str (s : String)
  | ref (a : Nat)
deriving Repr, DecidableEq

/-- A heap object: a Python `list` or `dict` (with string keys, as JSON
requires). -/
inductive HObj where
  | arr (items : List JVal)
  | obj (fields : List (String × JVal))
deriving Repr, DecidableEq

/-- The heap: an association of identities to objects. -/
abbrev Heap := List (Nat × HObj)

/-- Look an identity up in the heap (first binding wins). -/
def lookupHeap : Heap → Nat → Option HObj
  | [], _ => none
  | (b, o) :: rest, a => if b = a then some o else lookupHeap rest a

/-- An identity not used by any binding of the heap. -/
def freshAddr (h : Heap) : Nat :=
  (h.map Prod.fst).foldr (fun a m => max (a + 1) m) 0

/-- Look a key up in a string association list (Python `dict.get`). -/
def lookupField : List (String × JVal) → String → Option JVal
  | [], _ => none
  | (k, v) :: rest, key => if k = key then some v else lookupField rest key

/-- Look a key up in a string-to-string association list. -/
def lookupStr : List (String × String) → String → Option String
  | [], _ => none
  | (k, v) :: rest, key => if k = key then some v else lookupStr rest key

/-! ### Character-level helpers -/

/-- JSON whitespace (the characters skipped by `json.loads`). -/
def isWsChar (c : Char) : Bool :=
  c = ' ' || c = '\t' || c = '\n' || c = '\r'

/-- Drop leading JSON whitespace. -/
def skipWs : List Char → List Char
  | [] => []
  | c :: cs => if isWsChar c then skipWs cs else c :: cs

/-- Decimal digit character for `n < 10`. -/
def digitChar (n : Nat) : Char := Char.ofNat (48 + n)

/-- Decimal digits of a natural number, most significant first (fuel-driven;
`natDigits` supplies enough fuel). -/
def natDigitsF : Nat → Nat → List Char
  | 0, _ => []
  | fuel + 1, n =>
    if n < 10 then [digitChar n]
    else natDigitsF fuel (n / 10) ++ [digitChar (n % 10)]

/-- Decimal digits of a natural number (Python `str(n)` for `n ≥ 0`). -/
def natDigits (n : Nat) : List Char := natDigitsF (n + 1) n

/-- Python `str` of an integer. -/
def pyIntRepr : Int → List Char
  | .ofNat n => natDigits n
  | .negSucc m => '-' :: natDigits (m + 1)

/-- Lowercase hexadecimal digit for `n < 16`. -/
def hexDigitChar (n : Nat) : Char :=
  if n < 10 then Char.ofNat (48 + n) else Char.ofNat (87 + n)

/-- Four lowercase hex digits of `n % 0x10000` (the payload of a `\u`
escape emitted by `json.dumps`). -/
def hex4 (n : Nat) : List Char :=
  [hexDigitChar (n / 4096 % 16), hexDigitChar (n / 256 % 16),
   hexDigitChar (n / 16 % 16), hexDigitChar (n % 16)]

/-- Value of a hexadecimal digit character, if it is one. -/
def hexVal (c : Char) : Option Nat :=
  if '0' ≤ c ∧ c ≤ '9' then some (c.toNat - 48)
  else if 'a' ≤ c ∧ c ≤ 'f' then some (c.toNat - 87)
  else if 'A' ≤ c ∧ c ≤ 'F' then some (c.toNat - 55)
  else none

/-! ### JSON string escaping (`json.dumps`, default `ensure_ascii=True`) -/

/-- Escape one character the way `json.dumps` does: the two-character
escapes for quote, backslash and common control characters, `\uXXXX` for other
control or non-ASCII characters (a surrogate pair above `0xFFFF`), the
character itself otherwise. -/
def jsonEscapeChar (c : Char) : List Char :=
  if c = '"' then ['\\', '"']
  else if c = '\\' then ['\\', '\\']
  else if c = '\n' then ['\\', 'n']
  else if c = '\r' then ['\\', 'r']
  else if c = '\t' then ['\\', 't']
  else if c.toNat = 8 then ['\\', 'b']
  else if c.toNat = 12 then ['\\', 'f']
  else if c.toNat < 0x20 ∨ c.toNat > 0x7e then
    if c.toNat < 0x10000 then '\\' :: 'u' :: hex4 c.toNat
    else
      let v := c.toNat - 0x10000
      ('\\' :: 'u' :: hex4 (0xd800 + v / 1024)) ++ ('\\' :: 'u' :: hex4 (0xdc00 + v % 1024))
  else [c]

/-- Serialize a string as a JSON string literal, `json.dumps` style. -/
def jsonQuote (s : String) : List Char :=
  '"' :: (s.data.map jsonEscapeChar).flatten ++ ['"']

/-! ### The JSON parser (`json.loads`, strict mode)

The parser validates and decodes: it returns the decoded value, the heap of
freshly allocated composites, and the unconsumed input.  Strings, numbers
and literals are recognised structurally; the mutually nested
value / object-member / array-item recursion is driven by fuel (callers pass
`length + 1`, which is ample since every recursive step strictly consumes
input first). -/

/-- Simple one-character escapes accepted after a backslash (besides `\u`). -/
def escCharOf (e : Char) : Option Char :=
  if e = '"' then some '"'
  else if e = '\\' then some '\\'
  else if e = '/' then some '/'
  else if e = 'b' then some (Char.ofNat 8)
  else if e = 'f' then some (Char.ofNat 12)
  else if e = 'n' then some '\n'
  else if e = 'r' then some '\r'
  else if e = 't' then some '\t'
  else none

/-- Parse the body of a JSON string literal after its opening quote.
Returns the decoded characters and the input after the closing quote.
Strict mode: raw control characters are rejected.  Each `\uXXXX` escape is
decoded independently (surrogate pairs, which Lean `Char` cannot carry
half of, are not recombined into one code point; acceptance and
consumption match the Python decoder, and no caller inspects the decoded
characters of such escapes). -/
def parseStringBody : List Char → Option (List Char × List Char)
  | [] => none
  | c :: cs =>
    if c = '"' then some ([], cs)
    else if c = '\\' then
      match cs with
      | [] => none
      | e :: cs2 =>
        if e = 'u' then
          match cs2 with
          | a :: b :: c2 :: d :: cs3 =>
            (match hexVal a, hexVal b, hexVal c2, hexVal d with
             | some x, some y, some z, some w =>
               (parseStringBody cs3).map
                 (fun p => (Char.ofNat (((x * 16 + y) * 16 + z) * 16 + w) :: p.1, p.2))
             | _, _, _, _ => none)
          | _ => none
        else
          match escCharOf e with
          | some ch => (parseStringBody cs2).map (fun p => (ch :: p.1, p.2))
          | none => none
    else if c.toNat < 0x20 then none
    else (parseStringBody cs).map (fun p => (c :: p.1, p.2))

/-- Accumulated value of a list of decimal digit characters. -/
def digitsToNat (l : List Char) : Nat :=
  l.foldl (fun acc c => acc * 10 + (c.toNat - 48)) 0

/-- Integer part of the JSON number grammar: `0`, or a nonzero digit
followed by any digits (mirroring `(?:0|[1-9]\d*)`). -/
def parseIntPart : List Char → Option (List Char × List Char)
  | [] => none
  | c :: cs =>
    if c = '0' then some (['0'], cs)
    else if c.isDigit then
      some (c :: cs.takeWhile Char.isDigit, cs.dropWhile Char.isDigit)
    else none

/-- Optional fractional part `\.\d+`; returns the consumed characters
(empty when absent) and the rest. -/
def parseFracPart (l : List Char) : List Char × List Char :=
  match l with
  | c :: rest =>
    if c = '.' then
      let ds := rest.takeWhile Char.isDigit
      if ds = [] then ([], l) else ('.' :: ds, rest.dropWhile Char.isDigit)
    else ([], l)
  | [] => ([], l)

/-- Optional exponent part `[eE][-+]?\d+`; returns the consumed characters
(empty when absent) and the rest. -/
def parseExpPart (l : List Char) : List Char × List Char :=
  match l with
  | e :: rest =>
    if e = 'e' ∨ e = 'E' then
      match rest with
      | s :: rest2 =>
        if s = '+' ∨ s = '-' then
          let ds := rest2.takeWhile Char.isDigit
          if ds = [] then ([], l) else (e :: s :: ds, rest2.dropWhile Char.isDigit)
        else
          let ds := rest.takeWhile Char.isDigit
          if ds = [] then ([], l) else (e :: ds, rest.dropWhile Char.isDigit)
      | [] => ([], l)
    else ([], l)
  | [] => ([], l)

/-- Parse a JSON number token (the scanner's `NUMBER_RE`, then the
constants `NaN` / `Infinity` / `-Infinity`).  A purely integral token
becomes `JVal.num`; anything with a fraction or exponent, and the
constants, become a symbolic `JVal.pyfloat`. -/
def parseNumberToken (input : List Char) : Option (JVal × List Char) :=
  let neg : Bool := input.head? = some '-'
  let afterSign : List Char := if neg then input.drop 1 else input
  match parseIntPart afterSign with
  | some (ds, r1) =>
    let (fr, r2) := parseFracPart r1
    let (ex, r3) := parseExpPart r2
    if fr = [] ∧ ex = [] then
      some (.num (if neg then -(digitsToNat ds : Int) else (digitsToNat ds : Int)), r3)
    else
      some (.pyfloat (String.mk ((if neg then ['-'] else []) ++ ds ++ fr ++ ex)), r3)
  | none =>
    if input.take 3 = ['N', 'a', 'N'] then some (.pyfloat "NaN", input.drop 3)
    else if input.take 8 = ['I', 'n', 'f', 'i', 'n', 'i', 't', 'y'] then
      some (.pyfloat "Infinity", input.drop 8)
    else if input.take 9 = ['-', 'I', 'n', 'f', 'i', 'n', 'i', 't', 'y'] then
      some (.pyfloat "-Infinity", input.drop 9)
    else none

/-- Result of a parse step: decoded value, extended heap, rest of input. -/
structure PRes where
  val : JVal
  heap : Heap
  rest : List Char
deriving Repr, DecidableEq

/-- Allocate a fresh composite in the heap. -/
def allocObj (h : Heap) (o : HObj) : Nat × Heap :=
  let a := freshAddr h
  (a, (a, o) :: h)

/-- Parser mode: a value, the members of an object after the opening brace
(first key at hand), or the items of an array. -/
inductive PMode where
  | val
  | members (acc : List (String × JVal))
  | items (acc : List JVal)

/-- Core of the `json.loads` scanner.  `PMode.val` expects a value at the
head of the input (no leading whitespace); the other modes run the
object-member / array-item loops.  Fuel decreases at every nested step. -/
def parseCore : Nat → PMode → Heap → List Char → Option PRes
  | 0, _, _, _ => none
  | fuel + 1, .val, h, input =>
    (match input with
     | [] => none
     | c :: cs =>
       if c = '"' then (parseStringBody cs).map (fun p => ⟨.str (String.mk p.1), h, p.2⟩)
       else if c = '\x7b' then
         match skipWs cs with
         | '\x7d' :: r =>
           let (a, h2) := allocObj h (.obj [])
           some ⟨.ref a, h2, r⟩
         | cs2 => parseCore fuel (.members []) h cs2
       else if c = '[' then
         match skipWs cs with
         | ']' :: r =>
           let (a, h2) := allocObj h (.arr [])
           some ⟨.ref a, h2, r⟩
         | cs2 => parseCore fuel (.items []) h cs2
       else if c = 'n' ∧ cs.take 3 = ['u', 'l', 'l'] then some ⟨.null, h, cs.drop 3⟩
       else if c = 't' ∧ cs.take 3 = ['r', 'u', 'e'] then some ⟨.bool true, h, cs.drop 3⟩
       else if c = 'f' ∧ cs.take 4 = ['a', 'l', 's', 'e'] then some ⟨.bool false, h, cs.drop 4⟩
       else (parseNumberToken (c :: cs)).map (fun p => ⟨p.1, h, p.2⟩))
  | fuel + 1, .members acc, h, input =>
    (match input with
     | [] => none
     | c :: cs =>
       if c = '"' then
         match parseStringBody cs with
         | none => none
         | some (k, r1) =>
           match skipWs r1 with
           | ':' :: r2 =>
             (match parseCore fuel .val h (skipWs r2) with
              | none => none
              | some ⟨v, h2, r3⟩ =>
                let acc2 := acc ++ [(String.mk k, v)]
                match skipWs r3 with
                | ',' :: r4 => parseCore fuel (.members acc2) h2 (skipWs r4)
                | '\x7d' :: r4 =>
                  let (a, h3) := allocObj h2 (.obj acc2)
                  some ⟨.ref a, h3, r4⟩
                | _ => none)
           | _ => none
       else none)
  | fuel + 1, .items acc, h, input =>
    (match parseCore fuel .val h input with
     | none => none
     | some ⟨v, h2, r1⟩ =>
       let acc2 := acc ++ [v]
       match skipWs r1 with
       | ',' :: r2 => parseCore fuel (.items acc2) h2 (skipWs r2)
       | ']' :: r2 =>
         let (a, h3) := allocObj h2 (.arr acc2)
         some ⟨.ref a, h3, r2⟩
       | _ => none)

/-- Full `json.loads`: skip leading whitespace, parse one value, require
only whitespace to follow.  Returns the decoded value and its heap. -/
def parseFull (s : String) : Option (Heap × JVal) :=
  let cs := skipWs s.data
  match parseCore (cs.length + 1) .val [] cs with
  | some ⟨v, h, rest⟩ => if skipWs rest = [] then some (h, v) else none
  | none => none

/-- Whether a string parses as JSON (validation half of `json.loads`). -/
def validateJson (s : String) : Bool := (parseFull s).isSome

/-! ### The JSON serializer (`json.dumps`)

`dumpVal` mirrors the C encoder used by `json.dumps`: compact mode with the
default separators `", "` / `": "`, and pretty mode with `indent=2` (item
separator `","` followed by a newline and indentation).  A marker set of
identities along the current path detects circular references, in which
case serialization fails (Python raises `ValueError`), as it does on a
dangling reference (impossible for a heap obtained from live Python
values).  Fuel decreases only when descending through a reference; a
cycle-free descent visits pairwise distinct identities, so `h.length + 1`
fuel is never exhausted. -/

/-- Indentation for nesting level `lvl` under `indent=2`. -/
def indentOf (lvl : Nat) : List Char := List.replicate (2 * lvl) ' '

/-- Serialize each item of an array with the given recursive serializer. -/
def dumpSeq (rec : JVal → Option (List Char)) : List JVal → Option (List (List Char))
  | [] => some []
  | v :: rest =>
    match rec v, dumpSeq rec rest with
    | some s, some ss => some (s :: ss)
    | _, _ => none

/-- Serialize each `key: value` member of an object with the given
recursive serializer (the key separator is `": "` in both modes). -/
def dumpFieldsSeq (rec : JVal → Option (List Char)) : List (String × JVal) → Option (List (List Char))
  | [] => some []
  | (k, v) :: rest =>
    match rec v, dumpFieldsSeq rec rest with
    | some s, some ss => some ((jsonQuote k ++ ':' :: ' ' :: s) :: ss)
    | _, _ => none

/-- Core of `json.dumps` over the heap.  `seen` is the marker set of
identities on the current path, `lvl` the nesting level for pretty mode. -/
def dumpVal (h : Heap) (pretty : Bool) : Nat → List Nat → Nat → JVal → Option (List Char)
  | 0, _, _, _ => none
  | fuel + 1, seen, lvl, v =>
    match v with
    | .null => some "null".data
    | .bool true => some "true".data
    | .bool false => some "false".data
    | .num n => some (pyIntRepr n)
    | .pyfloat lit => some lit.data
    | .str s => some (jsonQuote s)
    | .ref a =>
      if a ∈ seen then none
      else
        match lookupHeap h a with
        | none => none
        | some (.arr []) => some ['[', ']']
        | some (.arr items) =>
          (dumpSeq (dumpVal h pretty fuel (a :: seen) (lvl + 1)) items).map (fun pieces =>
            if pretty then
              '[' :: '\n' :: List.intercalate [',', '\n'] (pieces.map (fun p => indentOf (lvl + 1) ++ p)) ++
                '\n' :: indentOf lvl ++ [']']
            else
              '[' :: List.intercalate [',', ' '] pieces ++ [']'])
        | some (.obj []) => some ['\x7b', '\x7d']
        | some (.obj fields) =>
          (dumpFieldsSeq (dumpVal h pretty fuel (a :: seen) (lvl + 1)) fields).map (fun pieces =>
            if pretty then
              '\x7b' :: '\n' :: List.intercalate [',', '\n'] (pieces.map (fun p => indentOf (lvl + 1) ++ p)) ++
                '\n' :: indentOf lvl ++ ['\x7d']
            else
              '\x7b' :: List.intercalate [',', ' '] pieces ++ ['\x7d'])

/-- Top-level `json.dumps` (pretty ↔ `indent=2`). -/
def dumps (h : Heap) (pretty : Bool) (v : JVal) : Option String :=
  (dumpVal h pretty (h.length + 1) [] 0 v).map String.mk

/-- Serialize a freshly allocated dict, as the renderer does for its
structured error objects (`json.dumps({...})` on a new literal dict). -/
def freshObjDump (h : Heap) (pretty : Bool) (fields : List (String × JVal)) : Option String :=
  let (a, h2) := allocObj h (.obj fields)
  dumps h2 pretty (.ref a)

/-! ### Python `str()` of values (used by the markdown renderer) -/

/-- Python `str` of a scalar (`str(None)`, `str(True)`, `str(int)`, …).
References are handled separately by `pyStrJV`. -/
def pyScalarStr : JVal → String
  | .null => "None"
  | .bool true => "True"
  | .bool false => "False"
  | .num n => String.mk (pyIntRepr n)
  | .pyfloat lit => lit
  | .str s => s
  | .ref _ => ""

/-- Two lowercase hex digits of `n % 256`. -/
def hex2 (n : Nat) : List Char := [hexDigitChar (n / 16 % 16), hexDigitChar (n % 16)]

/-- Escape one character of a Python string `repr` delimited by quote `q`
(backslash and quote escaped, common control characters as `\n`-style
escapes, other control characters as `\xHH`; printable characters kept). -/
def pyReprStrChar (q : Char) (c : Char) : List Char :=
  if c = '\\' then ['\\', '\\']
  else if c = q then ['\\', q]
  else if c = '\n' then ['\\', 'n']
  else if c = '\r' then ['\\', 'r']
  else if c = '\t' then ['\\', 't']
  else if c.toNat < 32 ∨ c.toNat = 127 then '\\' :: 'x' :: hex2 c.toNat
  else [c]

/-- Python `repr` of a string: single-quoted, or double-quoted when the
string contains a single quote but no double quote. -/
def pyStrQuote (s : String) : List Char :=
  let q := if s.data.contains (Char.ofNat 39) ∧ ¬ s.data.contains '"' then '"' else Char.ofNat 39
  q :: (s.data.map (pyReprStrChar q)).flatten ++ [q]

/-- Python `repr` of a value, with the container recursion guard
(`Py_ReprEnter`): an identity already on the current path renders as
`[...]` / `{...}`.  Fuel decreases per reference descent; `h.length + 1`
covers any cycle-free path. -/
def pyReprF (h : Heap) : Nat → List Nat → JVal → List Char
  | 0, _, _ => ['.', '.', '.']
  | fuel + 1, seen, v =>
    match v with
    | .str s => pyStrQuote s
    | .ref a =>
      (match lookupHeap h a with
       | none => ['.', '.', '.']
       | some (.arr items) =>
         if a ∈ seen then '[' :: '.' :: '.' :: '.' :: [']']
         else '[' :: List.intercalate [',', ' '] (items.map (pyReprF h fuel (a :: seen))) ++ [']']
       | some (.obj fields) =>
         if a ∈ seen then '\x7b' :: '.' :: '.' :: '.' :: ['\x7d']
         else
           '\x7b' :: List.intercalate [',', ' ']
             (fields.map (fun kv => pyStrQuote kv.1 ++ ':' :: ' ' :: pyReprF h fuel (a :: seen) kv.2)) ++ ['\x7d'])
    | w => (pyScalarStr w).data

/-- Python `str` of an arbitrary value: the string itself for strings, the
scalar form for scalars, the container `repr` for dicts and lists. -/
def pyStrJV (h : Heap) (v : JVal) : String :=
  match v with
  | .ref _ => String.mk (pyReprF h (h.length + 1) [] v)
  | w => pyScalarStr w

/-! ### The markdown renderer (`response_formatter.py`) -/

/-- Maximum recursion depth of `json_to_markdown`. -/
def MAX_RECURSION_DEPTH : Nat := 100

/-- Maximum rendered length of a table cell. -/
def MAX_TABLE_CELL_LENGTH : Nat := 50

/-- The characters escaped by `escape_markdown` after the backslash pass. -/
def mdSpecialChars : List Char := ['|', '*', '_', Char.ofNat 96, '[', ']', '#']

/-- Escape one character for markdown.  The source applies sequential
`str.replace` passes (backslash first, then each special character); since
the later passes never touch backslashes and the inserted backslashes are
introduced only after the backslash pass, this equals the per-character
map below. -/
def escapeMarkdownChar (c : Char) : List Char :=
  if c = '\\' then ['\\', '\\']
  else if c ∈ mdSpecialChars then ['\\', c]
  else [c]

/-- Escape markdown special characters (`escape_markdown`). -/
def escape_markdown (s : String) : String :=
  String.mk (s.data.map escapeMarkdownChar).flatten

/-- Whether a value is a Python `dict` (`isinstance(v, dict)`). -/
def isDictVal (h : Heap) (v : JVal) : Bool :=
  match v with
  | .ref a =>
    (match lookupHeap h a with
     | some (.obj _) => true
     | _ => false)
  | _ => false

/-- Keys of a value when it is a dict, `[]` otherwise. -/
def rowKeys (h : Heap) (v : JVal) : List String :=
  match v with
  | .ref a =>
    (match lookupHeap h a with
     | some (.obj fields) => fields.map Prod.fst
     | _ => [])
  | _ => []

/-- Append a key if unseen (`dict.fromkeys` preserves first-seen order). -/
def addFirstSeen (acc : List String) (k : String) : List String :=
  if k ∈ acc then acc else acc ++ [k]

/-- Union of the keys of all dict elements, in first-seen order. -/
def tableKeys (h : Heap) (data : List JVal) : List String :=
  data.foldl (fun acc v => (rowKeys h v).foldl addFirstSeen acc) []

/-- Truncate a cell to the length cap, suffixing an ellipsis. -/
def truncCell (s : String) : String :=
  if s.length > MAX_TABLE_CELL_LENGTH then String.mk (s.data.take (MAX_TABLE_CELL_LENGTH - 3)) ++ "..."
  else s

/-- Rendered text of one table cell for key `k` of a dict's fields
(`item.get(header, "")`, `str`, truncation, markdown escaping). -/
def tableCellOf (h : Heap) (fields : List (String × JVal)) (k : String) : String :=
  escape_markdown (truncCell (pyStrJV h ((lookupField fields k).getD (.str ""))))

/-- One data row of the table for a dict element (callers filter to dict
elements first). -/
def tableRowOf (h : Heap) (keys : List String) (v : JVal) : String :=
  match v with
  | .ref a =>
    (match lookupHeap h a with
     | some (.obj fields) =>
       "| " ++ String.intercalate " | " (keys.map (tableCellOf h fields)) ++ " |"
     | _ => "")
  | _ => ""

/-- The rows list built by `array_to_markdown_table`: header row, separator
row, one data row per dict element. -/
def tableRows (h : Heap) (data : List JVal) : List String :=
  let keys := tableKeys h data
  let headers := keys.map escape_markdown
  let headerRow := "| " ++ String.intercalate " | " headers ++ " |"
  let separatorRow := "|" ++ String.intercalate "|" (headers.map (fun _ => "---")) ++ "|"
  headerRow :: separatorRow :: (data.filter (isDictVal h)).map (tableRowOf h keys)

/-- Convert an array of objects to a markdown table
(`array_to_markdown_table`).  The defensive first branch of the source
(empty array or non-dict first element), which recurses back into
`json_to_markdown` and is unreachable from the only call site because the
caller establishes its negation, is omitted; `json_to_markdown` below calls
this function only under that guard. -/
def array_to_markdown_table (h : Heap) (data : List JVal) (indent : String) : String :=
  if tableKeys h data = [] then indent ++ "_empty array_"
  else String.intercalate "\n" (tableRows h data)

/-- Render the items of a non-table array as indented bullets, threading
the seen set left to right exactly as the Python generator mutates it. -/
def jmdItems (rec : JVal → String → List Nat → Nat → String × List Nat)
    (ind : String) (depth : Nat) : List JVal → List Nat → List String × List Nat
  | [], seen => ([], seen)
  | item :: rest, seen =>
    let (t, s1) := rec item "" seen (depth + 1)
    let (ts, s2) := jmdItems rec ind depth rest s1
    ((ind ++ "- " ++ t) :: ts, s2)

/-- Render the entries of an object (`_format_object_entry` per entry),
threading the seen set left to right. -/
def jmdEntries (rec : JVal → String → List Nat → Nat → String × List Nat)
    (ind : String) (depth : Nat) : List (String × JVal) → List Nat → List String × List Nat
  | [], seen => ([], seen)
  | (k, v) :: rest, seen =>
    let fk := escape_markdown (String.mk (k.data.map (fun c => if c = '_' then ' ' else c)))
    match v with
    | .ref _ =>
      let (t, s1) := rec v (ind ++ "  ") seen (depth + 1)
      let (ts, s2) := jmdEntries rec ind depth rest s1
      ((ind ++ "**" ++ fk ++ ":**\n" ++ t) :: ts, s2)
    | w =>
      let (ts, s2) := jmdEntries rec ind depth rest seen
      ((ind ++ "**" ++ fk ++ ":** " ++ escape_markdown (pyScalarStr w)) :: ts, s2)

/-- Core of `json_to_markdown`.  Returns the rendered text together with
the seen set after the call (the Python `seen` set is mutated in place and
identities are never removed).  Fuel stands in for the call stack; the
depth guard makes `MAX_RECURSION_DEPTH + 2 - depth` fuel sufficient, and
the fuel-exhausted result coincides with the guard's placeholder. -/
def jmdF (h : Heap) : Nat → JVal → String → List Nat → Nat → String × List Nat
  | 0, _, ind, seen, _ => (ind ++ "_max depth exceeded_", seen)
  | fuel + 1, data, ind, seen, depth =>
    if depth > MAX_RECURSION_DEPTH then (ind ++ "_max depth exceeded_", seen)
    else
      match data with
      | .null => (ind ++ "_null_", seen)
      | .ref a =>
        if a ∈ seen then (ind ++ "_circular reference_", seen)
        else
          let seen1 := a :: seen
          match lookupHeap h a with
          | none => (ind ++ "_null_", seen1)
          | some (.arr []) => (ind ++ "_empty array_", seen1)
          | some (.arr (v0 :: vs)) =>
            if isDictVal h v0 then (array_to_markdown_table h (v0 :: vs) ind, seen1)
            else
              let (lines, seen2) := jmdItems (jmdF h fuel) ind depth (v0 :: vs) seen1
              (String.intercalate "\n" lines, seen2)
          | some (.obj []) => (ind ++ "_empty object_", seen1)
          | some (.obj fields) =>
            let (lines, seen2) := jmdEntries (jmdF h fuel) ind depth fields seen1
            (String.intercalate "\n" lines, seen2)
      | w => (ind ++ escape_markdown (pyScalarStr w), seen)

/-- Entry point `json_to_markdown(data)` (fresh seen set, depth 0). -/
def json_to_markdown (h : Heap) (data : JVal) : String :=
  (jmdF h (MAX_RECURSION_DEPTH + 2) data "" [] 0).1

/-! ### `format_response` (`response_formatter.py`) -/

/-- The `ResponseFormat` enumeration (`models.py`). -/
inductive ResponseFormat where
  | markdown
  | json
deriving Repr, DecidableEq

/-- The string value of an enumeration member (it is a `str` enum). -/
def ResponseFormat.value : ResponseFormat → String
  | .markdown => "markdown"
  | .json => "json"

/-- The Python value passed as the `format` argument: an enumeration
member, a plain string (which a `str` enum member compares equal to its
value), or any other object (never equal to a member). -/
inductive FormatArg where
  | fmt (f : ResponseFormat)
  | pystr (s : String)
  | other (reprStr : String)
deriving Repr, DecidableEq

/-- Python `==` between the format argument and an enum member. -/
def formatArgEq : FormatArg → ResponseFormat → Bool
  | .fmt f, g => f = g
  | .pystr s, g => s = g.value
  | .other _, _ => false

/-- The membership test `format in [ResponseFormat.JSON, ResponseFormat.MARKDOWN]`. -/
def formatArgIsValid (f : FormatArg) : Bool :=
  formatArgEq f .json || formatArgEq f .markdown

/-- Rendering of the format argument inside the `ValueError` message
(only reached for invalid arguments). -/
def formatArgStr : FormatArg → String
  | .fmt .json => "ResponseFormat.JSON"
  | .fmt .markdown => "ResponseFormat.MARKDOWN"
  | .pystr s => s
  | .other r => r

/-- Message of the `ValueError` raised by `json.dumps` on a circular
structure, the one serialization failure expressible for heap values. -/
def serializeErrorDetails : String := "Circular reference detected"

/-- Python `json.dumps` of a non-container scalar (no failure possible). -/
def dumpScalarJson : JVal → String
  | .null => "null"
  | .bool true => "true"
  | .bool false => "false"
  | .num n => String.mk (pyIntRepr n)
  | .pyfloat lit => lit
  | .str s => String.mk (jsonQuote s)
  | .ref _ => ""

/-- The renderer `format_response(content, format)`.  A raised
`ValueError` is the `Except.error` case; every other outcome is `.ok`. -/
def format_response (h : Heap) (content : JVal) (format : FormatArg) : Except String String :=
  if ¬ formatArgIsValid format then .error ("Unsupported format: " ++ formatArgStr format)
  else
    let isJson := formatArgEq format .json
    match content with
    | .ref _ =>
      if isJson then
        match dumps h true content with
        | some s => .ok s
        | none =>
          .ok ((freshObjDump h false
            [("error", .str "Failed to serialize content"),
             ("details", .str serializeErrorDetails)]).getD "")
      else .ok (json_to_markdown h content)
    | .str s =>
      if isJson then
        if validateJson s then .ok s
        else
          .ok ((freshObjDump h false
            [("error", .str "Invalid JSON content"),
             ("raw_content", .str s)]).getD "")
      else
        match parseFull s with
        | some (hp, v) => .ok (json_to_markdown hp v)
        | none => .ok s
    | w =>
      if isJson then .ok (dumpScalarJson w) else .ok (pyScalarStr w)

/-! ### Tool definitions and the registry (`models.py`, `autoloader.py`) -/

/-- Python `str.strip()` yields the empty string, i.e. the string is empty
or all whitespace (`not v or not v.strip()` truthiness). -/
def pyBlank (s : String) : Bool := s.data.all Char.isWhitespace

/-- Python `str.isalnum()` restricted to ASCII alphanumerics (the tool
names in this repository are ASCII); empty strings are not alphanumeric. -/
def pyIsAlnum (s : List Char) : Bool := ¬ s.isEmpty && s.all Char.isAlphanum

/-- The `input_schema` dict, treated opaquely (no claim inspects it);
`defaultSchema` stands for the default `{"type": "object", "properties": {}}`. -/
inductive SchemaModel where
  | defaultSchema
  | custom (tag : String)
deriving Repr, DecidableEq

/-- A validated-on-construction `ToolDefinition` (pydantic model). -/
structure ToolDefinition where
  name : String
  description : String
  input_schema : SchemaModel
deriving Repr, DecidableEq

/-- The `validate_name` field validator of `ToolDefinition`. -/
def validate_name (v : String) : Except String String :=
  if v = "" ∨ pyBlank v then .error "Tool name cannot be empty"
  else if ¬ (v.data.take 1).all Char.isAlphanum then
    .error "Tool name must start with an alphanumeric character"
  else if ¬ pyIsAlnum (v.data.filter (fun c => c ≠ '_' ∧ c ≠ '-')) then
    .error "Tool name must contain only alphanumeric characters, hyphens, and underscores"
  else .ok v

/-- Constructing `ToolDefinition(**d)` from a keyword dict: both `name`
and `description` are required, `input_schema` defaults, and the name
validator runs. -/
def mkToolDefinition (name? : Option String) (description? : Option String)
    (schema? : Option SchemaModel) : Except String ToolDefinition :=
  match name?, description? with
  | some n, some d =>
    (validate_name n).map (fun n2 => ⟨n2, d, schema?.getD .defaultSchema⟩)
  | _, _ => .error "Field required"

/-- The tool registry: ordered definitions plus a name-keyed handler map
(a Python dict, here an association list where assignment replaces the
first binding in place or appends). -/
structure ToolRegistry (H : Type) where
  tools : List ToolDefinition
  handlers : List (String × H)
deriving Repr, DecidableEq

/-- The empty registry (`ToolRegistry.__init__`). -/
def ToolRegistry.empty (H : Type) : ToolRegistry H := ⟨[], []⟩

/-- Python dict assignment `d[k] = v`: replace the existing binding or
append a new one. -/
def assocSet (k : String) (v : H) : List (String × H) → List (String × H)
  | [] => [(k, v)]
  | (k2, v2) :: rest => if k2 = k then (k2, v) :: rest else (k2, v2) :: assocSet k v rest

/-- Look a key up in the handler map. -/
def assocGet (k : String) : List (String × H) → Option H
  | [] => none
  | (k2, v2) :: rest => if k2 = k then some v2 else assocGet k rest

/-- `ToolRegistry.register`: append the definition to the ordered list and
assign the handler under the definition's name. -/
def ToolRegistry.register (r : ToolRegistry H) (tool_def : ToolDefinition) (handler : H) :
    ToolRegistry H :=
  ⟨r.tools ++ [tool_def], assocSet tool_def.name handler r.handlers⟩

/-- `ToolRegistry.get_handler`: the handler bound to the name, or `none`. -/
def ToolRegistry.get_handler (r : ToolRegistry H) (tool_name : String) : Option H :=
  assocGet tool_name r.handlers

/-! ### Tool discovery (`discover_tools_with_handlers`)

A candidate module of the tools package is abstracted by what the loader
observes of it: importing it raises; it exports no `tool_definition`; it
exports a keyword dict (convertible or not); it exports a
`ToolDefinition` instance; or it exports something else entirely — in each
case together with whether an attribute ending in `_handler` exists. -/

/-- What a candidate tool module exposes to the loader. -/
inductive CandidatePayload (H : Type) where
  | raisesOnImport
  | noToolDefinition
  | dictDefinition (name : Option String) (description : Option String)
      (schema : Option SchemaModel) (handler : Option H)
  | instanceDefinition (td : ToolDefinition) (handler : Option H)
  | nonToolDefinition (handler : Option H)

/-- A candidate module: its module name and its payload. -/
structure Candidate (H : Type) where
  modName : String
  payload : CandidatePayload H

/-- Python `module_name.startswith("__")`. -/
def dunderName (s : String) : Bool :=
  match s.data with
  | '_' :: '_' :: _ => true
  | _ => false

/-- Outcome of a registry build: the registry and the loaded/failed
counters reported on completion. -/
structure DiscoverResult (H : Type) where
  registry : ToolRegistry H
  loaded : Nat
  failed : Nat

/-- One iteration of the discovery loop over a candidate. -/
def discoverStep (acc : DiscoverResult H) (c : Candidate H) : DiscoverResult H :=
  if dunderName c.modName then acc
  else
    match c.payload with
    | .raisesOnImport => ⟨acc.registry, acc.loaded, acc.failed + 1⟩
    | .noToolDefinition => acc
    | .dictDefinition n d s handler? =>
      (match mkToolDefinition n d s with
       | .error _ => ⟨acc.registry, acc.loaded, acc.failed + 1⟩
       | .ok td =>
         match handler? with
         | some hd => ⟨acc.registry.register td hd, acc.loaded + 1, acc.failed⟩
         | none => ⟨acc.registry, acc.loaded, acc.failed + 1⟩)
    | .instanceDefinition td handler? =>
      (match handler? with
       | some hd => ⟨acc.registry.register td hd, acc.loaded + 1, acc.failed⟩
       | none => ⟨acc.registry, acc.loaded, acc.failed + 1⟩)
    | .nonToolDefinition _ => ⟨acc.registry, acc.loaded, acc.failed + 1⟩

/-- `discover_tools_with_handlers` over the candidate modules found in the
tools package (the package import itself is environment setup and assumed
to succeed; a failure there is re-raised before the loop begins). -/
def discover_tools_with_handlers (cs : List (Candidate H)) : DiscoverResult H :=
  cs.foldl discoverStep ⟨.empty H, 0, 0⟩

/-- The (definition, handler) pair a candidate successfully contributes,
if any. -/
def loadOutcome (c : Candidate H) : Option (ToolDefinition × H) :=
  if dunderName c.modName then none
  else
    match c.payload with
    | .dictDefinition n d s (some hd) =>
      (match mkToolDefinition n d s with
       | .ok td => some (td, hd)
       | .error _ => none)
    | .instanceDefinition td (some hd) => some (td, hd)
    | _ => none

/-- Whether the loop counts a candidate as failed (a raising import, a
malformed dict, a missing handler, or a non-`ToolDefinition` export;
modules without a `tool_definition` and `__`-prefixed modules are skipped
without counting). -/
def discoveryFailed (c : Candidate H) : Bool :=
  if dunderName c.modName then false
  else
    match c.payload with
    | .raisesOnImport => true
    | .noToolDefinition => false
    | .dictDefinition n d s handler? =>
      (match mkToolDefinition n d s with
       | .error _ => true
       | .ok _ => handler?.isNone)
    | .instanceDefinition _ handler? => handler?.isNone
    | .nonToolDefinition _ => true

/-! ### The MCP server (`server.py`) -/

/-- The backend client collaborator: its configuration and the outcomes of
the two queries the resource reader issues (`Except.error` models the
client raising, with the exception's message). -/
structure OllamaClient where
  host : String
  apiKey : String
  listResult : Except String (Heap × JVal)
  psResult : Except String (Heap × JVal)

/-- A tool handler: `(client, args, format) → text result or raised
error`. -/
def ToolHandler : Type :=
  OllamaClient → List (String × String) → ResponseFormat → Except String String

def RESOURCE_URI_MODELS : String := "ollama://models"
def RESOURCE_URI_RUNNING : String := "ollama://running"
def RESOURCE_URI_CONFIG : String := "ollama://config"
def MIME_TYPE_JSON : String := "application/json"
def MIME_TYPE_TEXT : String := "text/plain"

/-- A static resource catalog entry. -/
structure ResourceDefinition where
  uri : String
  name : String
  description : String
  mime_type : String
deriving Repr, DecidableEq

/-- The catalog built by `_initialize_default_resources`. -/
def defaultResources : List (String × ResourceDefinition) :=
  [(RESOURCE_URI_MODELS,
    ⟨RESOURCE_URI_MODELS, "Available Models", "List of all available Ollama models", MIME_TYPE_JSON⟩),
   (RESOURCE_URI_RUNNING,
    ⟨RESOURCE_URI_RUNNING, "Running Models", "List of currently running models", MIME_TYPE_JSON⟩),
   (RESOURCE_URI_CONFIG,
    ⟨RESOURCE_URI_CONFIG, "Ollama Configuration", "Current Ollama server configuration", MIME_TYPE_JSON⟩)]

/-- Look a URI up in the resource catalog (`uri in self._resources`). -/
def lookupRes : List (String × ResourceDefinition) → String → Option ResourceDefinition
  | [], _ => none
  | (k, v) :: rest, key => if k = key then some v else lookupRes rest key

/-- One content item of a tool-call envelope (always `type: "text"`). -/
structure ContentItem where
  type : String
  text : String
deriving Repr, DecidableEq

/-- The envelope returned by `handle_call_tool`.  The Python success dict
carries a `structuredContent` key (possibly `None`) and no `isError` key;
the error dict carries `isError: True` and no `structuredContent` key —
`isError` here encodes which shape was returned, and `structuredContent`
is the parsed side-channel when present. -/
structure CallToolResult where
  content : List ContentItem
  structuredContent : Option (Heap × JVal)
  isError : Bool
deriving Repr, DecidableEq

/-- `_create_error_response`. -/
def _create_error_response (message : String) : CallToolResult :=
  ⟨[⟨"text", "Error: " ++ message⟩], none, true⟩

/-- A Python argument expected to be a string (`isinstance(x, str)`). -/
inductive PyStrArg where
  | str (s : String)
  | notStr
deriving Repr, DecidableEq

/-- A Python argument expected to be a dict of string arguments. -/
inductive PyDictArg where
  | dict (m : List (String × String))
  | notDict
deriving Repr, DecidableEq

/-- `handle_call_tool(name, args)`.  `discovered` is the registry the
discovery source would produce, `cached` the server's `tool_registry`
attribute (built once); the updated attribute is returned alongside the
envelope.  Every failure becomes an error envelope — nothing escapes. -/
def handle_call_tool (discovered : ToolRegistry ToolHandler) (client : OllamaClient)
    (cached : Option (ToolRegistry ToolHandler)) (name : PyStrArg) (args : PyDictArg) :
    CallToolResult × Option (ToolRegistry ToolHandler) :=
  match name with
  | .notStr => (_create_error_response "Invalid tool name", cached)
  | .str nm =>
    if pyBlank nm then (_create_error_response "Invalid tool name", cached)
    else
      match args with
      | .notDict => (_create_error_response "Invalid tool arguments", cached)
      | .dict argMap =>
        let registry := cached.getD discovered
        let cached2 := some registry
        match registry.get_handler nm with
        | none => (_create_error_response ("Unknown tool: " ++ nm), cached2)
        | some handler =>
          let formatArg := (lookupStr argMap "format").getD "json"
          let rf := if formatArg = "markdown" then ResponseFormat.markdown else ResponseFormat.json
          match handler client argMap rf with
          | .error e => (_create_error_response e, cached2)
          | .ok result =>
            let structured := if pyBlank result then none else parseFull result
            (⟨[⟨"text", result⟩], structured, false⟩, cached2)

/-- The `uri` argument of `handle_read_resource`: a string, a dict
carrying a `uri` field (the SDK compatibility shim), or another object
with its truthiness and `str()` form. -/
inductive UriArg where
  | str (s : String)
  | dict (fields : List (String × String))
  | other (truthy : Bool) (reprStr : String)
deriving Repr, DecidableEq

/-- The normalization prologue of `handle_read_resource`. -/
def normalizeUri : UriArg → String
  | .str s => s
  | .dict fields => (lookupStr fields "uri").getD ""
  | .other true r => r
  | .other false _ => ""

/-- One entry of a resource-read envelope. -/
structure ResourceContent where
  uri : String
  mimeType : String
  text : String
deriving Repr, DecidableEq

/-- The envelope returned by `handle_read_resource` (`isError` encodes the
presence of the `isError: True` key). -/
structure ReadResourceResult where
  contents : List ResourceContent
  isError : Bool
deriving Repr, DecidableEq

/-- `handle_read_resource(uri)`: normalize and validate the URI, look it
up in the static catalog, dispatch to the backend query, serialize; any
failure (unknown URI, client error, serialization error) is caught and
becomes an error envelope. -/
def handle_read_resource (client : OllamaClient) (uriArg : UriArg) : ReadResourceResult :=
  let uri := normalizeUri uriArg
  if pyBlank uri then
    ⟨[⟨uri, MIME_TYPE_TEXT, "Error reading resource: Invalid URI"⟩], true⟩
  else
    match lookupRes defaultResources uri with
    | none => ⟨[⟨uri, MIME_TYPE_TEXT, "Error reading resource: Unknown resource: " ++ uri⟩], true⟩
    | some resource =>
      let mime := resource.mime_type
      let fetched : Except String String :=
        if uri = RESOURCE_URI_MODELS then
          client.listResult.bind (fun hv =>
            match dumps hv.1 true hv.2 with
            | some s => .ok s
            | none => .error serializeErrorDetails)
        else if uri = RESOURCE_URI_RUNNING then
          client.psResult.bind (fun hv =>
            match dumps hv.1 true hv.2 with
            | some s => .ok s
            | none => .error serializeErrorDetails)
        else if uri = RESOURCE_URI_CONFIG then
          .ok ((freshObjDump [] true
            [("host", .str client.host),
             ("has_api_key", .bool (client.apiKey ≠ ""))]).getD "")
        else .ok "Resource data not available"
      match fetched with
      | .ok content => ⟨[⟨uri, mime, content⟩], false⟩
      | .error e => ⟨[⟨uri, MIME_TYPE_TEXT, "Error reading resource: " ++ e⟩], true⟩

/-! ### Prompts (`handle_get_prompt` and the static catalog) -/

def PROMPT_EXPLAIN_LORA : String := "explain_lora"
def PROMPT_CODE_REVIEW : String := "code_review"
def PROMPT_HELLO_WORLD : String := "hello_world"
def PROMPT_EXPLAIN_CODE : String := "explain_code"
def PROMPT_WRITE_DOCSTRING : String := "write_docstring"

/-- A declared prompt argument. -/
structure PromptArgDecl where
  name : String
  description : String
  required : Bool
deriving Repr, DecidableEq

/-- A static prompt catalog entry. -/
structure PromptDefinition where
  name : String
  description : String
  arguments : List PromptArgDecl
deriving Repr, DecidableEq

/-- The catalog built by `_initialize_default_prompts`. -/
def defaultPrompts : List (String × PromptDefinition) :=
  [(PROMPT_EXPLAIN_LORA,
    ⟨PROMPT_EXPLAIN_LORA, "Explain LoRA (Low-Rank Adaptation) technique",
     [⟨"detail_level", "Level of detail: basic, intermediate, or advanced", false⟩]⟩),
   (PROMPT_CODE_REVIEW,
    ⟨PROMPT_CODE_REVIEW, "Review code and provide feedback",
     [⟨"language", "Programming language", true⟩]⟩),
   (PROMPT_HELLO_WORLD,
    ⟨PROMPT_HELLO_WORLD, "Generate Hello World code in any language",
     [⟨"language", "Programming language", true⟩]⟩),
   (PROMPT_EXPLAIN_CODE,
    ⟨PROMPT_EXPLAIN_CODE, "Explain what a code snippet does in detail",
     [⟨"code", "The code snippet to explain", true⟩,
      ⟨"language", "Programming language of the code", false⟩]⟩),
   (PROMPT_WRITE_DOCSTRING,
    ⟨PROMPT_WRITE_DOCSTRING, "Generate comprehensive docstring/documentation for code",
     [⟨"code", "The code to document", true⟩,
      ⟨"language", "Programming language (e.g., python, javascript, typescript)", true⟩,
      ⟨"style", "Documentation style (e.g., google, numpy, jsdoc, sphinx)", false⟩]⟩)]

/-- Look a prompt name up in the catalog (`name in self._prompts`). -/
def lookupPrompt : List (String × PromptDefinition) → String → Option PromptDefinition
  | [], _ => none
  | (k, v) :: rest, key => if k = key then some v else lookupPrompt rest key

/-- A prompt message (`role` is always `"user"`, content type `"text"`). -/
structure PromptMessage where
  role : String
  contentType : String
  text : String
deriving Repr, DecidableEq

/-- The value returned by `handle_get_prompt` on success. -/
structure GetPromptResult where
  description : String
  messages : List PromptMessage
deriving Repr, DecidableEq

/-- The `explain_lora` template. -/
def explainLoraTemplate (detail : String) : String :=
  "Explain LoRA (Low-Rank Adaptation) at a " ++ detail ++ " level.\n" ++
  "Include:\n" ++
  "- What it is and why it\x27s useful\n" ++
  "- How it works technically\n" ++
  "- Use cases and benefits\n" ++
  "- Comparison with full fine-tuning"

/-- The `code_review` template. -/
def codeReviewTemplate (language : String) : String :=
  "Review the following " ++ language ++
  " code with focus on identifying potential bugs and correctness issues.\n" ++
  "You are a senior software engineer performing a deep code review. Your analysis should emphasize:\n\n" ++
  "1. Logic flaws or incorrect behavior\n" ++
  "2. Missing or unhandled edge cases\n" ++
  "3. Null/undefined reference risks\n" ++
  "4. Concurrency or race‑condition vulnerabilities\n" ++
  "5. Security weaknesses\n" ++
  "6. Resource‑management issues or leaks\n" ++
  "7. Violations of API contracts\n" ++
  "8. Incorrect or ineffective caching behavior (staleness, key bugs, invalidation issues)\n" ++
  "9. Inconsistencies with established patterns or conventions\n\n" ++
  "Additional requirements:\n" ++
  "- When exploring the codebase, use multiple tools in parallel for efficiency, but avoid excessive exploration.\n" ++
  "- Report any pre‑existing bugs you discover, not just those introduced by the changes.\n" ++
  "- Do not include speculative or low‑confidence findings; base conclusions on a solid understanding of the code.\n" ++
  "- Be aware that the referenced commit may not reflect the current local checkout state."

/-- The `hello_world` template. -/
def helloWorldTemplate (language : String) : String :=
  "Write a complete, well-commented Hello World program in " ++ language ++ ".\n" ++
  "Include:\n" ++
  "- Proper syntax and structure\n" ++
  "- Comments explaining each part\n" ++
  "- Best practices for the language\n" ++
  "- How to run the program"

/-- The `explain_code` template (for a non-empty `code` argument). -/
def explainCodeTemplate (code : String) (langHint : String) : String :=
  "Explain the following code" ++ langHint ++ " in detail:\n\n" ++
  "```\n" ++ code ++ "\n```\n\n" ++
  "Provide a comprehensive explanation that includes:\n" ++
  "1. **Overview**: What does this code do at a high level?\n" ++
  "2. **Step-by-step breakdown**: Explain each significant part\n" ++
  "3. **Key concepts**: What programming concepts or patterns are used?\n" ++
  "4. **Inputs and outputs**: What does it expect and what does it produce?\n" ++
  "5. **Potential issues**: Any edge cases, bugs, or improvements to consider?\n\n" ++
  "Be clear and educational in your explanation."

/-- The `write_docstring` template (for a non-empty `code` argument). -/
def writeDocstringTemplate (code language styleHint : String) : String :=
  "Generate comprehensive documentation" ++ styleHint ++ " for the following " ++ language ++ " code:\n\n" ++
  "```" ++ language ++ "\n" ++ code ++ "\n```\n\n" ++
  "Requirements:\n" ++
  "1. Write proper docstring/documentation comments appropriate for " ++ language ++ "\n" ++
  "2. Include:\n" ++
  "   - Brief description of what the code does\n" ++
  "   - Parameters/arguments with types and descriptions\n" ++
  "   - Return value with type and description\n" ++
  "   - Exceptions/errors that may be raised\n" ++
  "   - Usage examples if applicable\n" ++
  "   - Any important notes or warnings\n" ++
  "3. Follow " ++ language ++ " documentation conventions" ++ styleHint ++ "\n" ++
  "4. Be clear, concise, and complete\n\n" ++
  "Provide ONLY the documentation/docstring, formatted correctly for insertion into the code."

/-- The per-name template dispatch inside `handle_get_prompt`'s `try`
block: the rendered prompt text, or the raised `ValueError`'s message. -/
def promptTextFor (nm : String) (args : List (String × String)) : Except String String :=
  if nm = PROMPT_EXPLAIN_LORA then
    .ok (explainLoraTemplate ((lookupStr args "detail_level").getD "basic"))
  else if nm = PROMPT_CODE_REVIEW then
    .ok (codeReviewTemplate ((lookupStr args "language").getD "Python"))
  else if nm = PROMPT_HELLO_WORLD then
    .ok (helloWorldTemplate ((lookupStr args "language").getD "Python"))
  else if nm = PROMPT_EXPLAIN_CODE then
    let code := (lookupStr args "code").getD ""
    if code = "" then .error "The \x27code\x27 parameter is required for explain_code prompt"
    else
      let language := (lookupStr args "language").getD ""
      let langHint := if language ≠ "" then " (" ++ language ++ ")" else ""
      .ok (explainCodeTemplate code langHint)
  else if nm = PROMPT_WRITE_DOCSTRING then
    let code := (lookupStr args "code").getD ""
    if code = "" then .error "The \x27code\x27 parameter is required for write_docstring prompt"
    else
      let language := (lookupStr args "language").getD "python"
      let style := (lookupStr args "style").getD ""
      let styleHint := if style ≠ "" then " in " ++ style ++ " style" else ""
      .ok (writeDocstringTemplate code language styleHint)
  else .ok ("Prompt template for " ++ nm)

/-- `handle_get_prompt(name, arguments)`.  This path raises
(`Except.error`) instead of returning an error envelope: an invalid name
raises directly; any failure inside the `try` block (an unknown name, a
missing required argument) is caught and re-raised wrapped in
`"Error getting prompt: "`. -/
def handle_get_prompt (name : PyStrArg) (arguments : Option (List (String × String))) :
    Except String GetPromptResult :=
  match name with
  | .notStr => .error "Invalid prompt name"
  | .str nm =>
    if pyBlank nm then .error "Invalid prompt name"
    else
      match lookupPrompt defaultPrompts nm with
      | none => .error ("Error getting prompt: Unknown prompt: " ++ nm)
      | some promptDef =>
        let args := arguments.getD []
        match promptTextFor nm args with
        | .error e => .error ("Error getting prompt: " ++ e)
        | .ok text => .ok ⟨promptDef.description, [⟨"user", "text", text⟩]⟩

/-! ### Absence of floats

The idempotence claim ranges over strings, dicts, lists, numbers, booleans
and null; these predicates express that no symbolic float occurs in a
value or a heap. -/

/-- The value is not a symbolic float. -/
def jvNoFloat : JVal → Bool
  | .pyfloat _ => false
  | _ => true

/-- No immediate child of the object is a symbolic float. -/
def hObjNoFloat : HObj → Bool
  | .arr l => l.all jvNoFloat
  | .obj l => l.all (fun kv => jvNoFloat kv.2)

/-- No value reachable through the heap is a symbolic float. -/
def heapNoFloat (h : Heap) : Bool := h.all (fun e => hObjNoFloat e.2)

/-- A fixed client instance used by concrete witnesses. -/
def clientEx : OllamaClient :=
  ⟨"http://localhost:11434", "", .ok ([], .null), .ok ([], .null)⟩

/-- Decidable equality of `Except` results, for evaluating concrete runs. -/
instance {α β : Type} [DecidableEq α] [DecidableEq β] : DecidableEq (Except α β) := fun x y =>
  match x, y with
  | .error a, .error b => if h : a = b then isTrue (by rw [h]) else isFalse (by simp [h])
  | .ok a, .ok b => if h : a = b then isTrue (by rw [h]) else isFalse (by simp [h])
  | .error _, .ok _ => isFalse (by simp)
  | .ok _, .error _ => isFalse (by simp)

/-- Characters that terminate a number token (parsing a serialized value
followed by such a character consumes exactly the value). -/
def stopTok : List Char → Bool
  | [] => true
  | c :: _ => !(c.isDigit || c = '.' || c = 'e' || c = 'E')

/-- Normal form of the pretty-printed body of a container: each piece on
its own line behind the inner indentation, separated by `",\n"`. -/
def itemsBody (ind1 : List Char) : List (List Char) → List Char
  | [] => []
  | [p] => ind1 ++ p
  | p :: ps => ind1 ++ p ++ ',' :: '\n' :: itemsBody ind1 ps

/-- What follows the current array piece during the item loop: either the
closing line or a separator, the next piece, and the rest of the loop. -/
def itemsTail (ind1 ind0 tail : List Char) : List (List Char) → List Char
  | [] => '\n' :: ind0 ++ ']' :: tail
  | p :: ps => ',' :: '\n' :: ind1 ++ p ++ itemsTail ind1 ind0 tail ps

/-- What follows the current object member during the member loop. -/
def membersTail (ind1 ind0 tail : List Char) : List (List Char) → List Char
  | [] => '\n' :: ind0 ++ '\x7d' :: tail
  | p :: ps => ',' :: '\n' :: ind1 ++ p ++ membersTail ind1 ind0 tail ps

/-- What follows the current object member in compact mode (default
separators `", "` / `": "`). -/
def membersTailC (tail : List Char) : List (List Char) → List Char
  | [] => '\x7d' :: tail
  | p :: ps => ',' :: ' ' :: p ++ membersTailC tail ps

/-! ## Helper lemmas -/

theorem assocGet_assocSet_self {H : Type} (k : String) (v : H) (l : List (String × H)) :
    assocGet k (assocSet k v l) = some v := by
  induction l with
  | nil => simp [assocSet, assocGet]
  | cons p rest ih =>
    by_cases hk : p.1 = k
    · simp [assocSet, assocGet, hk]
    · simp [assocSet, assocGet, hk, ih]

theorem string_data_append (a b : String) : (a ++ b).data = a.data ++ b.data :=
  String.data_append a b

/-! ## C9 -/

/-- C9: registering a second definition under an already-registered name
makes the second handler win in the handler map while the ordered tools
list keeps both definitions, so listing shows a duplicate name and name
uniqueness fails. -/
theorem register_same_name_second_wins {H : Type} (r : ToolRegistry H)
    (d1 d2 : ToolDefinition) (h1 h2 : H) (hname : d1.name = d2.name) :
    ((r.register d1 h1).register d2 h2).get_handler d2.name = some h2 ∧
    ((r.register d1 h1).register d2 h2).tools = r.tools ++ [d1, d2] ∧
    2 ≤ ((((r.register d1 h1).register d2 h2).tools.map ToolDefinition.name).count d2.name) ∧
    ¬ (((r.register d1 h1).register d2 h2).tools.map ToolDefinition.name).Nodup := by
  refine ⟨?_, ?_, ?_, ?_⟩
  · simp [ToolRegistry.register, ToolRegistry.get_handler, assocGet_assocSet_self]
  · simp [ToolRegistry.register]
  · simp [ToolRegistry.register, hname, List.count_append]
  · intro hnd
    have h2le : 2 ≤ ((((r.register d1 h1).register d2 h2).tools.map ToolDefinition.name).count d2.name) := by
      simp [ToolRegistry.register, hname, List.count_append]
    have := List.nodup_iff_count_le_one.mp hnd d2.name
    omega

/-- Witness for C9 at a concrete registry collision. -/
theorem register_same_name_second_wins_witness :
    (((ToolRegistry.empty Nat).register ⟨"dup", "a", .defaultSchema⟩ 0).register
        ⟨"dup", "b", .defaultSchema⟩ 1).get_handler "dup" = some 1 ∧
    (((ToolRegistry.empty Nat).register ⟨"dup", "a", .defaultSchema⟩ 0).register
        ⟨"dup", "b", .defaultSchema⟩ 1).tools =
      [⟨"dup", "a", .defaultSchema⟩, ⟨"dup", "b", .defaultSchema⟩] ∧
    ¬ ((((ToolRegistry.empty Nat).register ⟨"dup", "a", .defaultSchema⟩ 0).register
        ⟨"dup", "b", .defaultSchema⟩ 1).tools.map ToolDefinition.name).Nodup := by
  have h := register_same_name_second_wins (ToolRegistry.empty Nat)
    ⟨"dup", "a", .defaultSchema⟩ ⟨"dup", "b", .defaultSchema⟩ 0 1 rfl
  exact ⟨h.1, h.2.1, h.2.2.2⟩

/-! ## C2 -/

theorem discoverStep_characterization {H : Type} (acc : DiscoverResult H) (c : Candidate H) :
    discoverStep acc c =
      match loadOutcome c with
      | some p => ⟨acc.registry.register p.1 p.2, acc.loaded + 1, acc.failed⟩
      | none => ⟨acc.registry, acc.loaded, acc.failed + (if discoveryFailed c then 1 else 0)⟩ := by
  rcases c with ⟨mn, pl⟩
  by_cases hd : dunderName mn
  · cases pl <;> simp [discoverStep, loadOutcome, discoveryFailed, hd]
  · cases pl with
    | raisesOnImport => simp [discoverStep, loadOutcome, discoveryFailed, hd]
    | noToolDefinition => simp [discoverStep, loadOutcome, discoveryFailed, hd]
    | dictDefinition n d s handler? =>
      cases hmk : mkToolDefinition n d s with
      | error e =>
        simp [discoverStep, loadOutcome, discoveryFailed, hd, hmk]
        cases handler? <;> simp [hmk]
      | ok td =>
        cases handler? <;> simp [discoverStep, loadOutcome, discoveryFailed, hd, hmk]
    | instanceDefinition td handler? =>
      cases handler? <;> simp [discoverStep, loadOutcome, discoveryFailed, hd]
    | nonToolDefinition handler? =>
      simp [discoverStep, loadOutcome, discoveryFailed, hd]

theorem loadOutcome_some_not_failed {H : Type} (c : Candidate H) (p : ToolDefinition × H)
    (h : loadOutcome c = some p) : discoveryFailed c = false := by
  rcases c with ⟨mn, pl⟩
  by_cases hd : dunderName mn
  · simp [loadOutcome, hd] at h
  · cases pl with
    | raisesOnImport => simp [loadOutcome, hd] at h
    | noToolDefinition => simp [loadOutcome, hd] at h
    | dictDefinition n d s handler? =>
      cases handler? with
      | none => simp [loadOutcome, hd] at h
      | some hdl =>
        cases hmk : mkToolDefinition n d s with
        | error e => simp [loadOutcome, hd, hmk] at h
        | ok td => simp [discoveryFailed, hd, hmk]
    | instanceDefinition td handler? =>
      cases handler? with
      | none => simp [loadOutcome, hd] at h
      | some hdl => simp [discoveryFailed, hd]
    | nonToolDefinition handler? => simp [loadOutcome, hd] at h

/-- C2: the discovery loop never aborts — it is a total fold — and its
result registers exactly the successfully loaded (definition, handler)
pairs in candidate order, reporting their number as `loaded` and the
number of failed candidates (raising, malformed, handlerless or
non-definition candidates) as `failed`.  Candidates without a
`tool_definition` and `__`-prefixed modules are skipped without being
counted. -/
theorem discover_exactly_successes {H : Type} (cs : List (Candidate H)) :
    discover_tools_with_handlers cs =
      ⟨(cs.filterMap loadOutcome).foldl (fun r p => r.register p.1 p.2) (ToolRegistry.empty H),
       (cs.filterMap loadOutcome).length,
       cs.countP (fun c => discoveryFailed c)⟩ := by
  have gen : ∀ (l : List (Candidate H)) (acc : DiscoverResult H),
      l.foldl discoverStep acc =
        ⟨(l.filterMap loadOutcome).foldl (fun r p => r.register p.1 p.2) acc.registry,
         acc.loaded + (l.filterMap loadOutcome).length,
         acc.failed + l.countP (fun c => discoveryFailed c)⟩ := by
    intro l
    induction l with
    | nil => intro acc; simp
    | cons c rest ih =>
      intro acc
      rw [List.foldl_cons, discoverStep_characterization]
      cases hl : loadOutcome c with
      | some p =>
        have hnf := loadOutcome_some_not_failed c p hl
        simp [List.filterMap_cons, hl, List.countP_cons, hnf, ih,
          DiscoverResult.mk.injEq] <;> omega
      | none =>
        simp [List.filterMap_cons, hl, List.countP_cons, ih, DiscoverResult.mk.injEq] <;>
          by_cases hf : discoveryFailed c = true <;> simp [hf] <;> omega
  have := gen cs ⟨ToolRegistry.empty H, 0, 0⟩
  simpa [discover_tools_with_handlers] using this

/-! ## C1 -/

/-- C1 counterexample: the name `" "` is non-empty and unregistered, yet
`handle_call_tool` returns the `"Invalid tool name"` envelope, whose text does
not contain `"Unknown tool: "` — the claim's universal quantification over
non-empty names fails on whitespace-only names. -/
theorem callTool_blank_name_counterexample :
    (" " : String) ≠ "" ∧
    (ToolRegistry.empty ToolHandler).get_handler " " = none ∧
    (handle_call_tool (ToolRegistry.empty ToolHandler) clientEx none (.str " ") (.dict [])).1 =
      ⟨[⟨"text", "Error: Invalid tool name"⟩], none, true⟩ ∧
    ¬ (("Unknown tool: " ++ " ").data <:+: ("Error: Invalid tool name" : String).data) := by
  exact ⟨by decide, rfl, rfl, by decide⟩

/-- C1 (amended to names that are non-blank after stripping): a tool name
that is not whitespace-only and has no handler in the effective registry
produces an error envelope with `isError` set, a single text item equal to
`"Error: Unknown tool: <name>"`, which contains `"Unknown tool: <name>"`;
no exception escapes (the function is total and returns the envelope). -/
theorem callTool_unknown_tool (discovered : ToolRegistry ToolHandler) (client : OllamaClient)
    (cached : Option (ToolRegistry ToolHandler)) (nm : String) (argMap : List (String × String))
    (hblank : pyBlank nm = false)
    (hmiss : (cached.getD discovered).get_handler nm = none) :
    (handle_call_tool discovered client cached (.str nm) (.dict argMap)).1 =
      ⟨[⟨"text", "Error: Unknown tool: " ++ nm⟩], none, true⟩ ∧
    ("Unknown tool: " ++ nm).data <:+: ("Error: Unknown tool: " ++ nm).data := by
  constructor
  · simp only [handle_call_tool, hblank, hmiss, _create_error_response, Bool.false_eq_true,
      if_false]
    rw [← String.append_assoc]
    have hlit : ("Error: " ++ "Unknown tool: " : String) = "Error: Unknown tool: " := by decide
    rw [hlit]
  · rw [string_data_append, string_data_append]
    have h1 : ("Error: Unknown tool: " : String).data = "Error: ".data ++ "Unknown tool: ".data := by
      decide
    rw [h1, List.append_assoc]
    exact (List.suffix_append _ _).isInfix

/-- Witness for the amended C1 at the claim's own instance
(`"does-not-exist"`, empty arguments). -/
theorem callTool_unknown_tool_witness :
    (handle_call_tool (ToolRegistry.empty ToolHandler) clientEx none
        (.str "does-not-exist") (.dict [])).1 =
      ⟨[⟨"text", "Error: Unknown tool: " ++ "does-not-exist"⟩], none, true⟩ ∧
    ("Unknown tool: " ++ "does-not-exist").data <:+:
      ("Error: Unknown tool: " ++ "does-not-exist").data := by
  have h := callTool_unknown_tool (ToolRegistry.empty ToolHandler) clientEx none
    "does-not-exist" [] (by decide) rfl
  exact ⟨h.1, h.2⟩

/-! ## C7 -/

theorem lookupPrompt_known (nm : String) (pd : PromptDefinition)
    (h : lookupPrompt defaultPrompts nm = some pd) :
    nm = PROMPT_EXPLAIN_LORA ∨ nm = PROMPT_CODE_REVIEW ∨ nm = PROMPT_HELLO_WORLD ∨
      nm = PROMPT_EXPLAIN_CODE ∨ nm = PROMPT_WRITE_DOCSTRING := by
  simp only [defaultPrompts, lookupPrompt] at h
  split_ifs at h with h1 h2 h3 h4 h5
  · exact Or.inl h1.symm
  · exact Or.inr (Or.inl h2.symm)
  · exact Or.inr (Or.inr (Or.inl h3.symm))
  · exact Or.inr (Or.inr (Or.inr (Or.inl h4.symm)))
  · exact Or.inr (Or.inr (Or.inr (Or.inr h5.symm)))

/-- C7 counterexample: `explain_code` is a known prompt name, yet fetching
it with empty arguments raises (the required `code` argument is missing),
so "for every known prompt name it returns a description plus a user
message" fails as universally stated. -/
theorem getPrompt_known_name_raises_counterexample :
    (lookupPrompt defaultPrompts "explain_code").isSome = true ∧
    handle_get_prompt (.str "explain_code") (some []) =
      .error "Error getting prompt: The \x27code\x27 parameter is required for explain_code prompt" := by
  exact ⟨by decide, by decide⟩

/-- C7 (amended): `handle_get_prompt` raises — returns `Except.error`
rather than an envelope — for a non-string, blank or unknown prompt name,
and also when a known prompt's required `code` argument is missing; for
every known prompt name whose template renders it returns the catalog
description plus a single user-role text message carrying the rendered
template.  This is asymmetric with `handle_call_tool` and
`handle_read_resource`, which always return envelopes. -/
theorem getPrompt_raises_or_renders :
    (∀ args, handle_get_prompt .notStr args = .error "Invalid prompt name") ∧
    (∀ nm args, pyBlank nm = true →
       handle_get_prompt (.str nm) args = .error "Invalid prompt name") ∧
    (∀ nm args, pyBlank nm = false → lookupPrompt defaultPrompts nm = none →
       handle_get_prompt (.str nm) args = .error ("Error getting prompt: Unknown prompt: " ++ nm)) ∧
    (∀ nm pd args t, lookupPrompt defaultPrompts nm = some pd →
       promptTextFor nm (args.getD []) = .ok t →
       handle_get_prompt (.str nm) args = .ok ⟨pd.description, [⟨"user", "text", t⟩]⟩) ∧
    (∀ nm pd args e, lookupPrompt defaultPrompts nm = some pd →
       promptTextFor nm (args.getD []) = .error e →
       handle_get_prompt (.str nm) args = .error ("Error getting prompt: " ++ e)) ∧
    (∀ args, (lookupStr args "code").getD "" = "" →
       handle_get_prompt (.str "explain_code") (some args) =
         .error "Error getting prompt: The \x27code\x27 parameter is required for explain_code prompt") := by
  have hknown_blank : ∀ nm (pd : PromptDefinition),
      lookupPrompt defaultPrompts nm = some pd → pyBlank nm = false := by
    intro nm pd h
    rcases lookupPrompt_known nm pd h with h1 | h1 | h1 | h1 | h1 <;> subst h1 <;> decide
  refine ⟨?_, ?_, ?_, ?_, ?_, ?_⟩
  · intro args; rfl
  · intro nm args hb; simp [handle_get_prompt, hb]
  · intro nm args hb hl; simp [handle_get_prompt, hb, hl]
  · intro nm pd args t hl ht
    have hb := hknown_blank nm pd hl
    simp [handle_get_prompt, hb, hl, ht]
  · intro nm pd args e hl he
    have hb := hknown_blank nm pd hl
    simp [handle_get_prompt, hb, hl, he]
  · intro args hc
    have ht : promptTextFor "explain_code" args =
        .error "The \x27code\x27 parameter is required for explain_code prompt" := by
      simp [promptTextFor, PROMPT_EXPLAIN_LORA, PROMPT_CODE_REVIEW, PROMPT_HELLO_WORLD,
        PROMPT_EXPLAIN_CODE, hc]
    have hl : lookupPrompt defaultPrompts "explain_code" =
        some ⟨PROMPT_EXPLAIN_CODE, "Explain what a code snippet does in detail",
          [⟨"code", "The code snippet to explain", true⟩,
           ⟨"language", "Programming language of the code", false⟩]⟩ := by decide
    have hb : pyBlank "explain_code" = false := by decide
    simp [handle_get_prompt, hb, hl, ht]

/-- Witness for the amended C7: an unknown prompt raises; a known prompt
with its arguments available returns the description and one user message. -/
theorem getPrompt_raises_or_renders_witness :
    handle_get_prompt (.str "nope") none = .error ("Error getting prompt: Unknown prompt: " ++ "nope") ∧
    handle_get_prompt (.str "hello_world") none =
      .ok ⟨"Generate Hello World code in any language",
        [⟨"user", "text", helloWorldTemplate "Python"⟩]⟩ := by
  refine ⟨getPrompt_raises_or_renders.2.2.1 "nope" none (by decide) (by decide), ?_⟩
  exact getPrompt_raises_or_renders.2.2.2.1 "hello_world"
    ⟨PROMPT_HELLO_WORLD, "Generate Hello World code in any language",
      [⟨"language", "Programming language", true⟩]⟩ none (helloWorldTemplate "Python")
    (by decide) rfl

/-! ## C8 -/

theorem mem_addFirstSeen (acc : List String) (k k2 : String) :
    k ∈ addFirstSeen acc k2 ↔ k ∈ acc ∨ k = k2 := by
  by_cases h : k2 ∈ acc
  · simp only [addFirstSeen, if_pos h]
    constructor
    · exact Or.inl
    · rintro (hk | rfl)
      · exact hk
      · exact h
  · simp [addFirstSeen, h, List.mem_append]

theorem addFirstSeen_nodup (acc : List String) (k : String) (h : acc.Nodup) :
    (addFirstSeen acc k).Nodup := by
  by_cases hk : k ∈ acc <;> simp [addFirstSeen, hk, h, List.nodup_append]

theorem mem_foldl_addFirstSeen (ks : List String) (acc : List String) (k : String) :
    k ∈ ks.foldl addFirstSeen acc ↔ k ∈ acc ∨ k ∈ ks := by
  induction ks generalizing acc with
  | nil => simp
  | cons k2 rest ih =>
    rw [List.foldl_cons, ih, mem_addFirstSeen]
    simp [or_assoc]

theorem nodup_foldl_addFirstSeen (ks : List String) (acc : List String) (h : acc.Nodup) :
    (ks.foldl addFirstSeen acc).Nodup := by
  induction ks generalizing acc with
  | nil => exact h
  | cons k2 rest ih => exact ih _ (addFirstSeen_nodup acc k2 h)

theorem mem_tableKeys (h : Heap) (data : List JVal) (k : String) :
    k ∈ tableKeys h data ↔ ∃ v ∈ data, k ∈ rowKeys h v := by
  have gen : ∀ (l : List JVal) (acc : List String),
      k ∈ l.foldl (fun acc v => (rowKeys h v).foldl addFirstSeen acc) acc ↔
        k ∈ acc ∨ ∃ v ∈ l, k ∈ rowKeys h v := by
    intro l
    induction l with
    | nil => simp
    | cons v rest ih =>
      intro acc
      rw [List.foldl_cons, ih, mem_foldl_addFirstSeen]
      simp [or_assoc]
  rw [tableKeys, gen]
  simp

theorem nodup_tableKeys (h : Heap) (data : List JVal) : (tableKeys h data).Nodup := by
  have gen : ∀ (l : List JVal) (acc : List String), acc.Nodup →
      (l.foldl (fun acc v => (rowKeys h v).foldl addFirstSeen acc) acc).Nodup := by
    intro l
    induction l with
    | nil => exact fun acc hn => hn
    | cons v rest ih => exact fun acc hn => ih _ (nodup_foldl_addFirstSeen _ _ hn)
  exact gen data [] List.nodup_nil

/-- C8 counterexample: `[{}]` is a non-empty list whose first element is a
map, yet the renderer produces the `_empty array_` placeholder — a single
line with no newline — instead of a table with a header row, a separator
row and one data row (which the claim's shape forces to span at least
three lines). -/
theorem array_table_keyless_counterexample :
    ([JVal.ref 0] ≠ ([] : List JVal)) ∧
    isDictVal [(0, HObj.obj [])] (JVal.ref 0) = true ∧
    array_to_markdown_table [(0, HObj.obj [])] [JVal.ref 0] "" = "_empty array_" ∧
    ("_empty array_" : String).data.count '\n' = 0 := by
  exact ⟨by decide, by decide, by decide, by decide⟩

/-- C8 (amended to arrays whose map elements carry at least one key): for
a non-empty list whose first element is a map and whose key union is
non-empty, the renderer joins a rows list made of a header row over the
first-seen-ordered key union, a separator row, and exactly one data row
per map element; missing keys render as empty cells (`str("") = ""`), and
a cell whose text form exceeds the 50-character cap is truncated to 47
characters plus an ellipsis before escaping. -/
theorem array_table_shape (h : Heap) (data : List JVal) (ind : String) (v0 : JVal)
    (hhead : data.head? = some v0) (hdict : isDictVal h v0 = true)
    (hkeys : tableKeys h data ≠ []) :
    array_to_markdown_table h data ind = String.intercalate "\n" (tableRows h data) ∧
    (tableRows h data).length = 2 + (data.filter (isDictVal h)).length ∧
    (tableRows h data).head? =
      some ("| " ++ String.intercalate " | " ((tableKeys h data).map escape_markdown) ++ " |") ∧
    (tableRows h data).drop 2 =
      (data.filter (isDictVal h)).map (tableRowOf h (tableKeys h data)) ∧
    (∀ k, k ∈ tableKeys h data ↔ ∃ v ∈ data, k ∈ rowKeys h v) ∧
    (tableKeys h data).Nodup ∧
    (∀ fields k, MAX_TABLE_CELL_LENGTH < (pyStrJV h ((lookupField fields k).getD (.str ""))).length →
      tableCellOf h fields k =
        escape_markdown (String.mk ((pyStrJV h ((lookupField fields k).getD (.str ""))).data.take
          (MAX_TABLE_CELL_LENGTH - 3)) ++ "...")) := by
  refine ⟨by simp [array_to_markdown_table, hkeys], by simp [tableRows]; omega,
    by simp [tableRows], by simp [tableRows], mem_tableKeys h data, nodup_tableKeys h data, ?_⟩
  intro fields k hlen
  have : (pyStrJV h ((lookupField fields k).getD (.str ""))).length > MAX_TABLE_CELL_LENGTH := hlen
  simp [tableCellOf, truncCell, this]

/-- Witness for the amended C8 at the claim's instance
`[{"a": 1}, {"a": 2, "b": 3}]`: header row over both keys, two data rows. -/
theorem array_table_shape_witness :
    (tableRows [(1, HObj.obj [("a", JVal.num 1)]), (2, HObj.obj [("a", JVal.num 2), ("b", JVal.num 3)])]
      [JVal.ref 1, JVal.ref 2]).length = 2 + 2 ∧
    (tableRows [(1, HObj.obj [("a", JVal.num 1)]), (2, HObj.obj [("a", JVal.num 2), ("b", JVal.num 3)])]
      [JVal.ref 1, JVal.ref 2]).head? = some "| a | b |" := by
  have h := array_table_shape
    [(1, HObj.obj [("a", JVal.num 1)]), (2, HObj.obj [("a", JVal.num 2), ("b", JVal.num 3)])]
    [JVal.ref 1, JVal.ref 2] "" (JVal.ref 1) (by decide) (by decide) (by decide)
  constructor
  · rw [h.2.1]; decide
  · rw [h.2.2.1]; decide

/-! ## C10 -/

/-- C10: `format_response` raises `ValueError` exactly when the format
argument is neither the JSON nor the MARKDOWN format (including their
string-enum values); for a valid format it returns a string for every
dict, list, string, number, boolean or null input — serialization
failures of unrepresentable composites are caught internally and rendered
as an error object instead of propagating. -/
theorem format_response_valueerror_iff (h : Heap) (content : JVal) (format : FormatArg) :
    (formatArgIsValid format = false →
      format_response h content format = .error ("Unsupported format: " ++ formatArgStr format)) ∧
    (formatArgIsValid format = true → ∃ s, format_response h content format = .ok s) ∧
    ((∃ e, format_response h content format = .error e) ↔ formatArgIsValid format = false) := by
  have herr : formatArgIsValid format = false →
      format_response h content format = .error ("Unsupported format: " ++ formatArgStr format) := by
    intro hv
    simp [format_response, hv]
  have hok : formatArgIsValid format = true → ∃ s, format_response h content format = .ok s := by
    intro hv
    cases content <;> simp [format_response, hv] <;>
      first
        | exact ⟨_, rfl⟩
        | (split <;>
            first
              | exact ⟨_, rfl⟩
              | (split <;> exact ⟨_, rfl⟩))
  refine ⟨herr, hok, ?_, ?_⟩
  · rintro ⟨e, he⟩
    by_cases hv : formatArgIsValid format = true
    · obtain ⟨s, hs⟩ := hok hv
      rw [hs] at he
      cases he
    · exact Bool.not_eq_true _ ▸ (by simpa using hv)
  · intro hv
    exact ⟨_, herr hv⟩

/-- Witness for C10: an invalid format object raises; the JSON format
returns a string on a null input. -/
theorem format_response_valueerror_iff_witness :
    format_response [] .null (.other "X") = .error ("Unsupported format: " ++ "X") ∧
    ∃ s, format_response [] .null (.fmt .json) = .ok s := by
  exact ⟨(format_response_valueerror_iff [] .null (.other "X")).1 (by decide),
    (format_response_valueerror_iff [] .null (.fmt .json)).2.1 (by decide)⟩

/-! ## C6 -/

theorem callTool_shape (discovered : ToolRegistry ToolHandler) (client : OllamaClient)
    (cached : Option (ToolRegistry ToolHandler)) (name : PyStrArg) (args : PyDictArg) :
    (∃ msg, (handle_call_tool discovered client cached name args).1 = _create_error_response msg) ∨
    (∃ res sc, (handle_call_tool discovered client cached name args).1 = ⟨[⟨"text", res⟩], sc, false⟩) := by
  cases name with
  | notStr => exact Or.inl ⟨"Invalid tool name", rfl⟩
  | str nm =>
    by_cases hb : pyBlank nm = true
    · exact Or.inl ⟨"Invalid tool name", by simp [handle_call_tool, hb]⟩
    · cases args with
      | notDict =>
        exact Or.inl ⟨"Invalid tool arguments", by
          simp [handle_call_tool, Bool.of_not_eq_true hb]⟩
      | dict m =>
        cases hget : (cached.getD discovered).get_handler nm with
        | none =>
          exact Or.inl ⟨"Unknown tool: " ++ nm, by
            simp [handle_call_tool, Bool.of_not_eq_true hb, hget]⟩
        | some hd =>
          cases hcall : hd client m
              (if (lookupStr m "format").getD "json" = "markdown" then ResponseFormat.markdown
               else ResponseFormat.json) with
          | error e =>
            exact Or.inl ⟨e, by
              simp [handle_call_tool, Bool.of_not_eq_true hb, hget, hcall]⟩
          | ok res =>
            exact Or.inr ⟨res, if pyBlank res = true then none else parseFull res, by
              simp [handle_call_tool, Bool.of_not_eq_true hb, hget, hcall]⟩

theorem readResource_shape (client : OllamaClient) (uriArg : UriArg) :
    (∃ u msg, handle_read_resource client uriArg =
      ⟨[⟨u, MIME_TYPE_TEXT, "Error reading resource: " ++ msg⟩], true⟩) ∨
    (∃ u m t, handle_read_resource client uriArg = ⟨[⟨u, m, t⟩], false⟩) := by
  by_cases hb : pyBlank (normalizeUri uriArg) = true
  · left
    refine ⟨normalizeUri uriArg, "Invalid URI", ?_⟩
    have hlit : ("Error reading resource: " ++ "Invalid URI" : String) =
        "Error reading resource: Invalid URI" := by decide
    rw [hlit]
    simp [handle_read_resource, hb]
  · cases hlook : lookupRes defaultResources (normalizeUri uriArg) with
    | none =>
      left
      refine ⟨normalizeUri uriArg, "Unknown resource: " ++ normalizeUri uriArg, ?_⟩
      have hlit : ("Error reading resource: " ++ ("Unknown resource: " ++ normalizeUri uriArg)) =
          "Error reading resource: Unknown resource: " ++ normalizeUri uriArg := by
        rw [← String.append_assoc]
        have : ("Error reading resource: " ++ "Unknown resource: " : String) =
            "Error reading resource: Unknown resource: " := by decide
        rw [this]
      rw [hlit]
      simp [handle_read_resource, Bool.of_not_eq_true hb, hlook]
    | some rd =>
      simp only [handle_read_resource, Bool.of_not_eq_true hb, hlook, Bool.false_eq_true, if_false]
      split
      · right; exact ⟨_, _, _, rfl⟩
      · left; exact ⟨_, _, rfl⟩

/-- C6 counterexample: a read-resource failure envelope carries the text
`"Error reading resource: …"`, which does not begin with `"Error: "`, so
the claim that every error envelope of the two operations begins with
`"Error: "` fails. -/
theorem readResource_error_prefix_counterexample :
    (handle_read_resource clientEx (.str "nope")).isError = true ∧
    (handle_read_resource clientEx (.str "nope")).contents =
      [⟨"nope", MIME_TYPE_TEXT, "Error reading resource: Unknown resource: nope"⟩] ∧
    ¬ ("Error: ".data <+: ("Error reading resource: Unknown resource: nope" : String).data) := by
  exact ⟨by decide, by decide, by decide⟩

/-- C6 (amended): invoke-capability error envelopes carry a single text
item beginning with `"Error: "`, read-resource error envelopes one
beginning with `"Error reading resource: "`, and both operations are
total, always returning an envelope with at least one content item. -/
theorem error_envelope_prefixes (discovered : ToolRegistry ToolHandler) (client : OllamaClient)
    (cached : Option (ToolRegistry ToolHandler)) (name : PyStrArg) (args : PyDictArg)
    (uriArg : UriArg) :
    ((handle_call_tool discovered client cached name args).1.isError = true →
      ∀ item ∈ (handle_call_tool discovered client cached name args).1.content,
        "Error: ".data <+: item.text.data) ∧
    (handle_call_tool discovered client cached name args).1.content ≠ [] ∧
    ((handle_read_resource client uriArg).isError = true →
      ∀ item ∈ (handle_read_resource client uriArg).contents,
        "Error reading resource: ".data <+: item.text.data) ∧
    (handle_read_resource client uriArg).contents ≠ [] := by
  have hct := callTool_shape discovered client cached name args
  have hrr := readResource_shape client uriArg
  refine ⟨?_, ?_, ?_, ?_⟩
  · intro _ item hitem
    rcases hct with ⟨msg, hmsg⟩ | ⟨res, sc, hok⟩
    · rw [hmsg] at hitem
      simp only [_create_error_response, List.mem_singleton] at hitem
      subst hitem
      rw [string_data_append]
      exact List.prefix_append _ _
    · rename_i hiserr
      rw [hok] at hiserr
      cases hiserr
  · rcases hct with ⟨msg, hmsg⟩ | ⟨res, sc, hok⟩
    · simp [hmsg, _create_error_response]
    · simp [hok]
  · intro _ item hitem
    rcases hrr with ⟨u, msg, hmsg⟩ | ⟨u, m, t, hok⟩
    · rw [hmsg] at hitem
      simp only [List.mem_singleton] at hitem
      subst hitem
      rw [string_data_append]
      exact List.prefix_append _ _
    · rename_i hiserr
      rw [hok] at hiserr
      cases hiserr
  · rcases hrr with ⟨u, msg, hmsg⟩ | ⟨u, m, t, hok⟩
    · simp [hmsg]
    · simp [hok]

/-- Witness for the amended C6 at concrete failing requests. -/
theorem error_envelope_prefixes_witness :
    (handle_read_resource clientEx (.str "nope")).isError = true ∧
    ("Error reading resource: ".data <+:
      ("Error reading resource: Unknown resource: nope" : String).data) ∧
    ("Error: ".data <+: ("Error: Unknown tool: does-not-exist" : String).data) := by
  refine ⟨by decide, ?_, ?_⟩
  · exact (error_envelope_prefixes (ToolRegistry.empty ToolHandler) clientEx none
      (.str "does-not-exist") (.dict []) (.str "nope")).2.2.1 (by decide)
      ⟨"nope", MIME_TYPE_TEXT, "Error reading resource: Unknown resource: nope"⟩ (by decide)
  · exact (error_envelope_prefixes (ToolRegistry.empty ToolHandler) clientEx none
      (.str "does-not-exist") (.dict []) (.str "nope")).1 (by decide)
      ⟨"text", "Error: Unknown tool: does-not-exist"⟩ (by decide)

/-! ## C4 -/

theorem jmdItems_congr (rec1 rec2 : JVal → String → List Nat → Nat → String × List Nat)
    (ind : String) (depth : Nat) (items : List JVal)
    (hrec : ∀ v ind2 seen, rec1 v ind2 seen (depth + 1) = rec2 v ind2 seen (depth + 1)) :
    ∀ seen, jmdItems rec1 ind depth items seen = jmdItems rec2 ind depth items seen := by
  induction items with
  | nil => intro seen; rfl
  | cons v rest ih =>
    intro seen
    simp only [jmdItems]
    rw [hrec, ih]

theorem jmdEntries_congr (rec1 rec2 : JVal → String → List Nat → Nat → String × List Nat)
    (ind : String) (depth : Nat) (fields : List (String × JVal))
    (hrec : ∀ v ind2 seen, rec1 v ind2 seen (depth + 1) = rec2 v ind2 seen (depth + 1)) :
    ∀ seen, jmdEntries rec1 ind depth fields seen = jmdEntries rec2 ind depth fields seen := by
  induction fields with
  | nil => intro seen; rfl
  | cons kv rest ih =>
    intro seen
    rcases kv with ⟨k, v⟩
    cases v <;> simp only [jmdEntries] <;> rw [ih]
    rw [hrec]

theorem jmdItems_seen_mono (rec : JVal → String → List Nat → Nat → String × List Nat)
    (hrec : ∀ v ind seen d x, x ∈ seen → x ∈ (rec v ind seen d).2)
    (ind : String) (depth : Nat) :
    ∀ (items : List JVal) (seen : List Nat) (x : Nat), x ∈ seen →
      x ∈ (jmdItems rec ind depth items seen).2 := by
  intro items
  induction items with
  | nil => intro seen x hx; exact hx
  | cons v rest ih =>
    intro seen x hx
    simp only [jmdItems]
    exact ih _ _ (hrec v "" seen (depth + 1) x hx)

theorem jmdEntries_seen_mono (rec : JVal → String → List Nat → Nat → String × List Nat)
    (hrec : ∀ v ind seen d x, x ∈ seen → x ∈ (rec v ind seen d).2)
    (ind : String) (depth : Nat) :
    ∀ (fields : List (String × JVal)) (seen : List Nat) (x : Nat), x ∈ seen →
      x ∈ (jmdEntries rec ind depth fields seen).2 := by
  intro fields
  induction fields with
  | nil => intro seen x hx; exact hx
  | cons kv rest ih =>
    intro seen x hx
    rcases kv with ⟨k, v⟩
    cases v <;> simp only [jmdEntries] <;>
      first
        | exact ih _ _ hx
        | exact ih _ _ (hrec _ _ seen (depth + 1) x hx)

theorem jmd_depth_guard (h : Heap) (f : Nat) (v : JVal) (ind : String) (seen : List Nat)
    (d : Nat) (hd : MAX_RECURSION_DEPTH < d) :
    jmdF h f v ind seen d = (ind ++ "_max depth exceeded_", seen) := by
  cases f with
  | zero => rfl
  | succ f => simp [jmdF, hd]

theorem jmd_seen_mono (h : Heap) :
    ∀ (f : Nat) (v : JVal) (ind : String) (seen : List Nat) (d : Nat) (x : Nat),
      x ∈ seen → x ∈ (jmdF h f v ind seen d).2 := by
  intro f
  induction f with
  | zero => intro v ind seen d x hx; exact hx
  | succ f ih =>
    intro v ind seen d x hx
    by_cases hd : MAX_RECURSION_DEPTH < d
    · simp only [jmdF, if_pos hd]; exact hx
    · cases v with
      | ref a =>
        by_cases ha : a ∈ seen
        · simp only [jmdF, if_neg hd, if_pos ha]; exact hx
        · have hx1 : x ∈ a :: seen := List.mem_cons_of_mem a hx
          cases hlook : lookupHeap h a with
          | none => simp only [jmdF, if_neg hd, if_neg ha, hlook]; exact hx1
          | some o =>
            cases o with
            | arr items =>
              cases items with
              | nil => simp only [jmdF, if_neg hd, if_neg ha, hlook]; exact hx1
              | cons v0 vs =>
                by_cases hdict : isDictVal h v0 = true
                · simp only [jmdF, if_neg hd, if_neg ha, hlook, hdict, if_pos]; exact hx1
                · simp only [jmdF, if_neg hd, if_neg ha, hlook,
                    Bool.of_not_eq_true hdict, Bool.false_eq_true, if_false]
                  exact jmdItems_seen_mono (jmdF h f) (fun v2 i2 s2 d2 => ih v2 i2 s2 d2) _ _ _ _ _ hx1
            | obj fields =>
              cases fields with
              | nil => simp only [jmdF, if_neg hd, if_neg ha, hlook]; exact hx1
              | cons kv rest =>
                simp only [jmdF, if_neg hd, if_neg ha, hlook]
                exact jmdEntries_seen_mono (jmdF h f) (fun v2 i2 s2 d2 => ih v2 i2 s2 d2) _ _ _ _ _ hx1
      | null => simp only [jmdF, if_neg hd]; exact hx
      | bool b => simp only [jmdF, if_neg hd]; exact hx
      | num n => simp only [jmdF, if_neg hd]; exact hx
      | pyfloat lit => simp only [jmdF, if_neg hd]; exact hx
      | str s => simp only [jmdF, if_neg hd]; exact hx

theorem jmd_fuel_canonical (h : Heap) :
    ∀ (f : Nat) (v : JVal) (ind : String) (seen : List Nat) (d : Nat),
      MAX_RECURSION_DEPTH + 2 - d ≤ f →
      jmdF h f v ind seen d = jmdF h (MAX_RECURSION_DEPTH + 2 - d) v ind seen d := by
  intro f
  induction f with
  | zero =>
    intro v ind seen d hfd
    have h0 : MAX_RECURSION_DEPTH + 2 - d = 0 := Nat.le_zero.mp hfd
    rw [h0]
  | succ f ih =>
    intro v ind seen d hfd
    by_cases hd : MAX_RECURSION_DEPTH < d
    · rw [jmd_depth_guard h _ v ind seen d hd, jmd_depth_guard h _ v ind seen d hd]
    · have hdle : d ≤ MAX_RECURSION_DEPTH := Nat.not_lt.mp hd
      have hsplit : MAX_RECURSION_DEPTH + 2 - d = (MAX_RECURSION_DEPTH + 1 - d) + 1 := by omega
      have hihbound : MAX_RECURSION_DEPTH + 2 - (d + 1) ≤ f := by omega
      have hstep : MAX_RECURSION_DEPTH + 2 - (d + 1) = MAX_RECURSION_DEPTH + 1 - d := by omega
      have hrec : ∀ v2 ind2 seen2,
          jmdF h f v2 ind2 seen2 (d + 1) =
            jmdF h (MAX_RECURSION_DEPTH + 1 - d) v2 ind2 seen2 (d + 1) := by
        intro v2 ind2 seen2
        rw [ih v2 ind2 seen2 (d + 1) hihbound, hstep]
      rw [hsplit]
      cases v with
      | ref a =>
        by_cases ha : a ∈ seen
        · simp only [jmdF, if_neg hd, if_pos ha]
        · cases hlook : lookupHeap h a with
          | none => simp only [jmdF, if_neg hd, if_neg ha, hlook]
          | some o =>
            cases o with
            | arr items =>
              cases items with
              | nil => simp only [jmdF, if_neg hd, if_neg ha, hlook]
              | cons v0 vs =>
                by_cases hdict : isDictVal h v0 = true
                · simp only [jmdF, if_neg hd, if_neg ha, hlook, hdict, if_pos]
                · simp only [jmdF, if_neg hd, if_neg ha, hlook,
                    Bool.of_not_eq_true hdict, Bool.false_eq_true, if_false]
                  rw [jmdItems_congr (jmdF h f) (jmdF h (MAX_RECURSION_DEPTH + 1 - d)) ind d
                    (v0 :: vs) hrec]
            | obj fields =>
              cases fields with
              | nil => simp only [jmdF, if_neg hd, if_neg ha, hlook]
              | cons kv rest =>
                simp only [jmdF, if_neg hd, if_neg ha, hlook]
                rw [jmdEntries_congr (jmdF h f) (jmdF h (MAX_RECURSION_DEPTH + 1 - d)) ind d
                  (kv :: rest) hrec]
      | null => simp only [jmdF, if_neg hd]
      | bool b => simp only [jmdF, if_neg hd]
      | num n => simp only [jmdF, if_neg hd]
      | pyfloat lit => simp only [jmdF, if_neg hd]
      | str s => simp only [jmdF, if_neg hd]

/-- C4: the recursive renderer is well defined on every heap value,
including cyclic and shared structures — its fuel embedding is stable once
the fuel covers the depth guard, which is the termination statement for
the embedded recursion; a composite whose identity is already in the seen
set of the current call renders as the `_circular reference_` placeholder;
identities are never removed from the seen set; and recursion beyond depth
100 returns the max-depth placeholder instead of continuing. -/
theorem json_to_markdown_guards (h : Heap) :
    (∀ f1 f2 v ind seen d, MAX_RECURSION_DEPTH + 2 - d ≤ f1 →
       MAX_RECURSION_DEPTH + 2 - d ≤ f2 →
       jmdF h f1 v ind seen d = jmdF h f2 v ind seen d) ∧
    (∀ f a ind seen d, d ≤ MAX_RECURSION_DEPTH → a ∈ seen →
       jmdF h (f + 1) (.ref a) ind seen d = (ind ++ "_circular reference_", seen)) ∧
    (∀ f v ind seen d x, x ∈ seen → x ∈ (jmdF h f v ind seen d).2) ∧
    (∀ f v ind seen d, MAX_RECURSION_DEPTH < d →
       jmdF h f v ind seen d = (ind ++ "_max depth exceeded_", seen)) := by
  refine ⟨?_, ?_, ?_, ?_⟩
  · intro f1 f2 v ind seen d h1 h2
    rw [jmd_fuel_canonical h f1 v ind seen d h1, jmd_fuel_canonical h f2 v ind seen d h2]
  · intro f a ind seen d hdle ha
    simp only [jmdF, if_neg (Nat.not_lt.mpr hdle), if_pos ha]
  · exact fun f v ind seen d x hx => jmd_seen_mono h f v ind seen d x hx
  · exact fun f v ind seen d hd => jmd_depth_guard h f v ind seen d hd

/-- Witness for C4 on the cyclic one-element list `a = [a]` and a
too-deep call. -/
theorem json_to_markdown_guards_witness :
    jmdF [(0, HObj.arr [JVal.ref 0])] 102 (JVal.ref 0) "" [] 0 =
      jmdF [(0, HObj.arr [JVal.ref 0])] 500 (JVal.ref 0) "" [] 0 ∧
    jmdF [(0, HObj.arr [JVal.ref 0])] (4 + 1) (JVal.ref 0) "" [0] 3 =
      ("" ++ "_circular reference_", [0]) ∧
    (0 ∈ (jmdF [(0, HObj.arr [JVal.ref 0])] 7 (JVal.ref 0) "" [0] 2).2) ∧
    jmdF [(0, HObj.arr [JVal.ref 0])] 9 (JVal.ref 0) "" [] 101 =
      ("" ++ "_max depth exceeded_", []) := by
  have h := json_to_markdown_guards [(0, HObj.arr [JVal.ref 0])]
  exact ⟨h.1 102 500 (JVal.ref 0) "" [] 0 (by decide) (by decide),
    h.2.1 4 0 "" [0] 3 (by decide) (by decide),
    h.2.2.1 7 (JVal.ref 0) "" [0] 2 0 (by decide),
    h.2.2.2 9 (JVal.ref 0) "" [] 101 (by decide)⟩

/-! ## C5 -/

theorem intercalate_pair (sep a b : List Char) :
    List.intercalate sep [a, b] = a ++ (sep ++ b) := by
  simp [List.intercalate, List.intersperse]

/-- Serializing a freshly allocated two-string-field dict compactly (the
renderer's structured error objects). -/
theorem freshObjDump_two_str (h : Heap) (k1 v1 k2 v2 : String) :
    freshObjDump h false [(k1, .str v1), (k2, .str v2)] =
      some (String.mk ('\x7b' :: ((jsonQuote k1 ++ ':' :: ' ' :: jsonQuote v1) ++
        ',' :: ' ' :: (jsonQuote k2 ++ ':' :: ' ' :: jsonQuote v2)) ++ ['\x7d'])) := by
  show (dumpVal ((freshAddr h, HObj.obj [(k1, .str v1), (k2, .str v2)]) :: h) false
      (h.length + 1 + 1) [] 0 (.ref (freshAddr h))).map String.mk = _
  simp [dumpVal, dumpFieldsSeq, lookupHeap, intercalate_pair]

/-- C5: in canonical (JSON) format a string input is parsed purely to
validate — if it parses it is returned unchanged, otherwise the result is
the compact serialization of `{"error": "Invalid JSON content",
"raw_content": <the string>}` — and numbers and booleans serialize
directly, with `None` serializing as the `null` literal. -/
theorem format_response_canonical_contract (h : Heap) (s : String) :
    (validateJson s = true → format_response h (.str s) (.fmt .json) = .ok s) ∧
    (validateJson s = false →
      format_response h (.str s) (.fmt .json) =
        .ok (String.mk ('\x7b' :: ((jsonQuote "error" ++ ':' :: ' ' :: jsonQuote "Invalid JSON content") ++
          ',' :: ' ' :: (jsonQuote "raw_content" ++ ':' :: ' ' :: jsonQuote s)) ++ ['\x7d']))) ∧
    (∀ n : Int, format_response h (.num n) (.fmt .json) = .ok (String.mk (pyIntRepr n))) ∧
    (∀ b : Bool, format_response h (.bool b) (.fmt .json) = .ok (if b then "true" else "false")) ∧
    format_response h .null (.fmt .json) = .ok "null" := by
  refine ⟨?_, ?_, ?_, ?_, ?_⟩
  · intro hv
    simp [format_response, formatArgIsValid, formatArgEq, hv]
  · intro hv
    simp [format_response, formatArgIsValid, formatArgEq, hv, freshObjDump_two_str]
  · intro n
    simp [format_response, formatArgIsValid, formatArgEq, dumpScalarJson]
  · intro b
    cases b <;> simp [format_response, formatArgIsValid, formatArgEq, dumpScalarJson]
  · simp [format_response, formatArgIsValid, formatArgEq, dumpScalarJson]

/-- Witness for C5: a valid JSON string is returned unchanged; an invalid
one is wrapped in the structured error object. -/
theorem format_response_canonical_contract_witness :
    format_response [] (.str "[1, 2]") (.fmt .json) = .ok "[1, 2]" ∧
    format_response [] (.str "oops") (.fmt .json) =
      .ok (String.mk ('\x7b' :: ((jsonQuote "error" ++ ':' :: ' ' :: jsonQuote "Invalid JSON content") ++
        ',' :: ' ' :: (jsonQuote "raw_content" ++ ':' :: ' ' :: jsonQuote "oops")) ++ ['\x7d'])) := by
  exact ⟨(format_response_canonical_contract [] "[1, 2]").1 (by decide),
    (format_response_canonical_contract [] "oops").2.1 (by decide)⟩

/-! ## C3

The claim is that canonical rendering is idempotent.  The body of the work
is that every string `format_response` emits in JSON format is accepted by
the validator — in particular the pretty-printed `json.dumps` output of an
arbitrary heap value reparses. -/

theorem skipWs_cons_not_ws (c : Char) (cs : List Char) (hc : isWsChar c = false) :
    skipWs (c :: cs) = c :: cs := by
  simp [skipWs, hc]

theorem skipWs_ws_append (w x : List Char) (hw : w.all isWsChar = true) :
    skipWs (w ++ x) = skipWs x := by
  induction w with
  | nil => rfl
  | cons c rest ih =>
    simp only [List.all_cons, Bool.and_eq_true] at hw
    simp [skipWs, hw.1, ih hw.2]

theorem indentOf_all_ws (lvl : Nat) : (indentOf lvl).all isWsChar = true := by
  simp only [indentOf, List.all_eq_true]
  intro c hc
  rw [List.eq_of_mem_replicate hc]
  rfl

theorem char_ne_of_toNat_ne {c d : Char} (h : c.toNat ≠ d.toNat) : c ≠ d :=
  fun he => h (he ▸ rfl)

theorem isDigit_toNat {c : Char} (h : c.isDigit = true) : 48 ≤ c.toNat ∧ c.toNat ≤ 57 := by
  simp only [Char.isDigit, Bool.and_eq_true, decide_eq_true_eq] at h
  exact ⟨h.1, h.2⟩

/-- A digit character is none of the value-start literals, no whitespace,
and no closing bracket. -/
theorem digit_char_facts {c : Char} (h : c.isDigit = true) :
    c ≠ '"' ∧ c ≠ '\x7b' ∧ c ≠ '[' ∧ c ≠ 'n' ∧ c ≠ 't' ∧ c ≠ 'f' ∧
    isWsChar c = false ∧ c ≠ ']' ∧ c ≠ '\x7d' ∧ c ≠ '-' := by
  obtain ⟨h1, h2⟩ := isDigit_toNat h
  refine ⟨char_ne_of_toNat_ne (by rw [show ('"').toNat = 34 from rfl]; omega),
    char_ne_of_toNat_ne (by rw [show ('\x7b').toNat = 123 from rfl]; omega),
    char_ne_of_toNat_ne (by rw [show ('[').toNat = 91 from rfl]; omega),
    char_ne_of_toNat_ne (by rw [show ('n').toNat = 110 from rfl]; omega),
    char_ne_of_toNat_ne (by rw [show ('t').toNat = 116 from rfl]; omega),
    char_ne_of_toNat_ne (by rw [show ('f').toNat = 102 from rfl]; omega),
    ?_,
    char_ne_of_toNat_ne (by rw [show (']').toNat = 93 from rfl]; omega),
    char_ne_of_toNat_ne (by rw [show ('\x7d').toNat = 125 from rfl]; omega),
    char_ne_of_toNat_ne (by rw [show ('-').toNat = 45 from rfl]; omega)⟩
  simp only [isWsChar, Bool.or_eq_false_iff, decide_eq_false_iff_not]
  refine ⟨⟨⟨char_ne_of_toNat_ne (by rw [show (' ').toNat = 32 from rfl]; omega),
    char_ne_of_toNat_ne (by rw [show ('\t').toNat = 9 from rfl]; omega)⟩,
    char_ne_of_toNat_ne (by rw [show ('\n').toNat = 10 from rfl]; omega)⟩,
    char_ne_of_toNat_ne (by rw [show ('\r').toNat = 13 from rfl]; omega)⟩

theorem map_snd_cons (o : Option (List Char × List Char)) (ch : Char) :
    (o.map (fun p => (ch :: p.1, p.2))).map Prod.snd = o.map Prod.snd := by
  cases o <;> rfl

theorem hexVal_hexDigitChar (n : Nat) (h : n < 16) : hexVal (hexDigitChar n) = some n := by
  interval_cases n <;> decide

/-- Decoding a `\\uXXXX` escape whose digits come from `hex4`. -/
theorem hexVal_hexDigitChar_mod (x : Nat) : hexVal (hexDigitChar (x % 16)) = some (x % 16) :=
  hexVal_hexDigitChar _ (Nat.mod_lt _ (by omega))

theorem parseStringBody_uesc (m : Nat) (t : List Char) :
    parseStringBody ('\\' :: 'u' :: hexDigitChar (m / 4096 % 16) :: hexDigitChar (m / 256 % 16) ::
      hexDigitChar (m / 16 % 16) :: hexDigitChar (m % 16) :: t) =
      (parseStringBody t).map (fun p =>
        (Char.ofNat ((((m / 4096 % 16) * 16 + m / 256 % 16) * 16 + m / 16 % 16) * 16 + m % 16) ::
          p.1, p.2)) := by
  conv_lhs => rw [parseStringBody.eq_def]
  simp [hexVal_hexDigitChar_mod]

theorem parseStringBody_esc2 (e ch : Char) (t : List Char) (hu : e ≠ 'u')
    (he : escCharOf e = some ch) :
    parseStringBody ('\\' :: e :: t) = (parseStringBody t).map (fun p => (ch :: p.1, p.2)) := by
  conv_lhs => rw [parseStringBody.eq_def]
  simp [hu, he]

theorem parseStringBody_plain (c : Char) (t : List Char) (h1 : c ≠ '"') (h2 : c ≠ '\\')
    (h3 : ¬ c.toNat < 0x20) :
    parseStringBody (c :: t) = (parseStringBody t).map (fun p => (c :: p.1, p.2)) := by
  conv_lhs => rw [parseStringBody.eq_def]
  simp [h1, h2, h3]

/-- The escaped form of any string, closed by a quote, parses back as a
string body consuming exactly the escaped characters. -/
theorem parseStringBody_escape (l : List Char) :
    ∀ rest, (parseStringBody ((l.map jsonEscapeChar).flatten ++ '"' :: rest)).map Prod.snd =
      some rest := by
  induction l with
  | nil =>
    intro rest
    rw [List.map_nil, List.flatten_nil, List.nil_append,
      show parseStringBody ('"' :: rest) = some ([], rest) from by
        conv_lhs => rw [parseStringBody.eq_def]
        simp]
    rfl
  | cons c cs ih =>
    intro rest
    rw [List.map_cons, List.flatten_cons, List.append_assoc]
    by_cases h1 : c = '"'
    · subst h1
      rw [show jsonEscapeChar '"' = ['\\', '"'] from rfl]
      rw [List.cons_append, List.cons_append, List.nil_append,
        parseStringBody_esc2 '"' '"' _ (by decide) (by decide), map_snd_cons]
      exact ih rest
    · by_cases h2 : c = '\\'
      · subst h2
        rw [show jsonEscapeChar '\\' = ['\\', '\\'] from rfl]
        rw [List.cons_append, List.cons_append, List.nil_append,
          parseStringBody_esc2 '\\' '\\' _ (by decide) (by decide), map_snd_cons]
        exact ih rest
      · by_cases h3 : c = '\n'
        · subst h3
          rw [show jsonEscapeChar '\n' = ['\\', 'n'] from rfl]
          rw [List.cons_append, List.cons_append, List.nil_append,
            parseStringBody_esc2 'n' '\n' _ (by decide) (by decide), map_snd_cons]
          exact ih rest
        · by_cases h4 : c = '\r'
          · subst h4
            rw [show jsonEscapeChar '\r' = ['\\', 'r'] from rfl]
            rw [List.cons_append, List.cons_append, List.nil_append,
              parseStringBody_esc2 'r' '\r' _ (by decide) (by decide), map_snd_cons]
            exact ih rest
          · by_cases h5 : c = '\t'
            · subst h5
              rw [show jsonEscapeChar '\t' = ['\\', 't'] from rfl]
              rw [List.cons_append, List.cons_append, List.nil_append,
                parseStringBody_esc2 't' '\t' _ (by decide) (by decide), map_snd_cons]
              exact ih rest
            · by_cases h6 : c.toNat = 8
              · have hchunk : jsonEscapeChar c = ['\\', 'b'] := by
                  simp [jsonEscapeChar, h1, h2, h3, h4, h5, h6]
                rw [hchunk, List.cons_append, List.cons_append, List.nil_append,
                  parseStringBody_esc2 'b' (Char.ofNat 8) _ (by decide) (by decide), map_snd_cons]
                exact ih rest
              · by_cases h7 : c.toNat = 12
                · have hchunk : jsonEscapeChar c = ['\\', 'f'] := by
                    simp [jsonEscapeChar, h1, h2, h3, h4, h5, h6, h7]
                  rw [hchunk, List.cons_append, List.cons_append, List.nil_append,
                    parseStringBody_esc2 'f' (Char.ofNat 12) _ (by decide) (by decide),
                    map_snd_cons]
                  exact ih rest
                · by_cases h8 : c.toNat < 0x20 ∨ c.toNat > 0x7e
                  · by_cases h9 : c.toNat < 0x10000
                    · have hchunk : jsonEscapeChar c = '\\' :: 'u' :: hex4 c.toNat := by
                        simp [jsonEscapeChar, h1, h2, h3, h4, h5, h6, h7, h8, h9]
                      rw [hchunk, hex4]
                      simp only [List.cons_append, List.nil_append]
                      rw [parseStringBody_uesc, map_snd_cons]
                      exact ih rest
                    · have hchunk : jsonEscapeChar c =
                          ('\\' :: 'u' :: hex4 (0xd800 + (c.toNat - 0x10000) / 1024)) ++
                          ('\\' :: 'u' :: hex4 (0xdc00 + (c.toNat - 0x10000) % 1024)) := by
                        simp [jsonEscapeChar, h1, h2, h3, h4, h5, h6, h7, h8, h9]
                      rw [hchunk, hex4, hex4]
                      simp only [List.cons_append, List.nil_append, List.append_assoc]
                      rw [parseStringBody_uesc, map_snd_cons, parseStringBody_uesc, map_snd_cons]
                      exact ih rest
                  · have hge : ¬ c.toNat < 0x20 := by omega
                    have hchunk : jsonEscapeChar c = [c] := by
                      simp [jsonEscapeChar, h1, h2, h3, h4, h5, h6, h7, h8]
                    rw [hchunk, List.cons_append, List.nil_append,
                      parseStringBody_plain c _ h1 h2 hge, map_snd_cons]
                    exact ih rest

theorem digitChar_spec (k : Nat) (h : k < 10) :
    (digitChar k).isDigit = true ∧ (digitChar k = '0' ↔ k = 0) := by
  interval_cases k <;> exact ⟨by decide, by decide⟩

theorem natDigitsF_spec : ∀ (fuel n : Nat), n < fuel →
    (natDigitsF fuel n).all Char.isDigit = true ∧
    ∃ c cs, natDigitsF fuel n = c :: cs ∧ c.isDigit = true ∧ (n ≠ 0 → c ≠ '0') := by
  intro fuel
  induction fuel with
  | zero => intro n h; omega
  | succ fuel ih =>
    intro n h
    by_cases h10 : n < 10
    · rw [show natDigitsF (fuel + 1) n = [digitChar n] from by simp [natDigitsF, h10]]
      obtain ⟨hd, hz⟩ := digitChar_spec n h10
      exact ⟨by simp [hd], digitChar n, [], rfl, hd, fun hn h0 => hn (hz.mp h0)⟩
    · have hdiv : n / 10 < fuel := by omega
      rw [show natDigitsF (fuel + 1) n = natDigitsF fuel (n / 10) ++ [digitChar (n % 10)] from by
        simp [natDigitsF, h10]]
      obtain ⟨hall, c, cs, heq, hcd, hcz⟩ := ih (n / 10) hdiv
      have hd10 := digitChar_spec (n % 10) (Nat.mod_lt _ (by omega))
      refine ⟨by simp [List.all_append, hall, hd10.1], c, cs ++ [digitChar (n % 10)],
        by rw [heq]; rfl, hcd, fun _ => hcz (by omega)⟩

theorem natDigits_spec (m : Nat) :
    (natDigits m).all Char.isDigit = true ∧
    ∃ c cs, natDigits m = c :: cs ∧ c.isDigit = true ∧ (m ≠ 0 → c ≠ '0') :=
  natDigitsF_spec (m + 1) m (by omega)

theorem takeWhile_dropWhile_append (p : Char → Bool) (l r : List Char)
    (hl : l.all p = true) (hr : ∀ c cs, r = c :: cs → p c = false) :
    (l ++ r).takeWhile p = l ∧ (l ++ r).dropWhile p = r := by
  induction l with
  | nil =>
    cases r with
    | nil => simp
    | cons c cs => simp [List.takeWhile_cons, List.dropWhile_cons, hr c cs rfl]
  | cons x xs ih =>
    simp only [List.all_cons, Bool.and_eq_true] at hl
    obtain ⟨hx, hxs⟩ := hl
    obtain ⟨ht, hd⟩ := ih hxs
    constructor
    · simp [List.takeWhile_cons, hx, ht]
    · simp [List.dropWhile_cons, hx, hd]

theorem stopTok_facts {c : Char} {cs : List Char} (h : stopTok (c :: cs) = true) :
    c.isDigit = false ∧ c ≠ '.' ∧ c ≠ 'e' ∧ c ≠ 'E' := by
  simp only [stopTok, Bool.not_eq_true', Bool.or_eq_false_iff,
    decide_eq_false_iff_not] at h
  exact ⟨h.1.1.1, h.1.1.2, h.1.2, h.2⟩

theorem parseFracPart_stop (r : List Char) (h : stopTok r = true) : parseFracPart r = ([], r) := by
  cases r with
  | nil => rfl
  | cons c cs =>
    have := stopTok_facts h
    simp [parseFracPart, this.2.1]

theorem parseExpPart_stop (r : List Char) (h : stopTok r = true) : parseExpPart r = ([], r) := by
  cases r with
  | nil => rfl
  | cons c cs =>
    have := stopTok_facts h
    simp [parseExpPart, this.2.2.1, this.2.2.2]

theorem parseIntPart_natDigits (m : Nat) (rest : List Char) (hstop : stopTok rest = true) :
    parseIntPart (natDigits m ++ rest) = some (natDigits m, rest) := by
  obtain ⟨hall, c, cs, heq, hcd, hcz⟩ := natDigits_spec m
  by_cases hm : m = 0
  · subst hm
    rw [show natDigits 0 = ['0'] from rfl]
    cases rest with
    | nil => simp [parseIntPart]
    | cons r rs => simp [parseIntPart]
  · rw [heq, List.cons_append]
    have hcsall : cs.all Char.isDigit = true := by
      rw [heq, List.all_cons, Bool.and_eq_true] at hall
      exact hall.2
    have hrstop : ∀ d ds, rest = d :: ds → d.isDigit = false := by
      intro d ds hr
      subst hr
      exact (stopTok_facts hstop).1
    obtain ⟨ht, hd⟩ := takeWhile_dropWhile_append Char.isDigit cs rest hcsall hrstop
    simp [parseIntPart, hcz hm, hcd, ht, hd]

theorem parseNumberToken_int (n : Int) (rest : List Char) (hstop : stopTok rest = true) :
    ∃ v, parseNumberToken (pyIntRepr n ++ rest) = some (v, rest) := by
  cases n with
  | ofNat m =>
    obtain ⟨hall, c, cs, heq, hcd, hcz⟩ := natDigits_spec m
    have hcm : c ≠ '-' := (digit_char_facts hcd).2.2.2.2.2.2.2.2.2
    have hhead2 : ((natDigits m ++ rest).head? = some '-') = False := by
      rw [heq]
      simp [hcm]
    refine ⟨.num (digitsToNat (natDigits m) : Int), ?_⟩
    show parseNumberToken (natDigits m ++ rest) = _
    simp only [parseNumberToken, hhead2, decide_False, Bool.false_eq_true, if_false,
      parseIntPart_natDigits m rest hstop, parseFracPart_stop rest hstop,
      parseExpPart_stop rest hstop]
    simp
  | negSucc m =>
    have hin : pyIntRepr (Int.negSucc m) ++ rest = '-' :: (natDigits (m + 1) ++ rest) := rfl
    rw [hin]
    have hhead2 : (('-' :: (natDigits (m + 1) ++ rest)).head? = some '-') = True := by simp
    refine ⟨.num (-(digitsToNat (natDigits (m + 1)) : Int)), ?_⟩
    simp only [parseNumberToken, hhead2, decide_True, if_true, List.drop_succ_cons,
      List.drop_zero, parseIntPart_natDigits (m + 1) rest hstop, parseFracPart_stop rest hstop,
      parseExpPart_stop rest hstop]
    simp

theorem parseCore_val_quote (f : Nat) (hp : Heap) (cs : List Char) :
    parseCore (f + 1) .val hp ('"' :: cs) =
      (parseStringBody cs).map (fun p => ⟨.str (String.mk p.1), hp, p.2⟩) := by
  conv_lhs => rw [parseCore.eq_def]
  simp

theorem parseCore_members_unfold (f : Nat) (hp : Heap) (acc : List (String × JVal))
    (cs : List Char) :
    parseCore (f + 1) (.members acc) hp ('"' :: cs) =
      (match parseStringBody cs with
       | none => none
       | some (k, r1) =>
         match skipWs r1 with
         | ':' :: r2 =>
           (match parseCore f .val hp (skipWs r2) with
            | none => none
            | some ⟨v, h2, r3⟩ =>
              match skipWs r3 with
              | ',' :: r4 => parseCore f (.members (acc ++ [(String.mk k, v)])) h2 (skipWs r4)
              | '\x7d' :: r4 =>
                some ⟨.ref (freshAddr h2),
                  (freshAddr h2, HObj.obj (acc ++ [(String.mk k, v)])) :: h2, r4⟩
              | _ => none)
         | _ => none) := by
  conv_lhs => rw [parseCore.eq_def]
  simp [allocObj]

theorem parseCore_items_unfold (f : Nat) (hp : Heap) (acc : List JVal) (input : List Char) :
    parseCore (f + 1) (.items acc) hp input =
      (match parseCore f .val hp input with
       | none => none
       | some r =>
         match skipWs r.rest with
         | ',' :: r2 => parseCore f (.items (acc ++ [r.val])) r.heap (skipWs r2)
         | ']' :: r2 =>
           some ⟨.ref (freshAddr r.heap), (freshAddr r.heap, HObj.arr (acc ++ [r.val])) :: r.heap, r2⟩
         | _ => none) := by
  conv_lhs => rw [parseCore.eq_def]
  simp only [allocObj]
  cases parseCore f PMode.val hp input with
  | none => rfl
  | some r =>
    rcases r with ⟨v, h2, r1⟩
    rfl

theorem parseCore_val_int (f : Nat) (hp : Heap) (n : Int) (rest : List Char)
    (hstop : stopTok rest = true) :
    (parseCore (f + 1) .val hp (pyIntRepr n ++ rest)).map PRes.rest = some rest := by
  obtain ⟨v, hv⟩ := parseNumberToken_int n rest hstop
  cases n with
  | ofNat m =>
    obtain ⟨hall, c, cs, heq, hcd, hcz⟩ := natDigits_spec m
    obtain ⟨ne1, ne2, ne3, ne4, ne5, ne6, hws, ne7, ne8, ne9⟩ := digit_char_facts hcd
    have hin : pyIntRepr (Int.ofNat m) ++ rest = c :: (cs ++ rest) := by
      show natDigits m ++ rest = _
      rw [heq, List.cons_append]
    have hv2 : parseNumberToken (c :: (cs ++ rest)) = some (v, rest) := by
      rw [← hin]; exact hv
    rw [hin]
    conv_lhs => rw [parseCore.eq_def]
    simp [ne1, ne2, ne3, ne4, ne5, ne6, hv2]
  | negSucc m =>
    have hin : pyIntRepr (Int.negSucc m) ++ rest = '-' :: (natDigits (m + 1) ++ rest) := rfl
    have hv2 : parseNumberToken ('-' :: (natDigits (m + 1) ++ rest)) = some (v, rest) := by
      rw [← hin]; exact hv
    rw [hin]
    conv_lhs => rw [parseCore.eq_def]
    simp [hv2]

theorem parseCore_val_null (f : Nat) (hp : Heap) (rest : List Char) :
    parseCore (f + 1) .val hp ('n' :: 'u' :: 'l' :: 'l' :: rest) = some ⟨.null, hp, rest⟩ := by
  conv_lhs => rw [parseCore.eq_def]
  simp

theorem parseCore_val_true (f : Nat) (hp : Heap) (rest : List Char) :
    parseCore (f + 1) .val hp ('t' :: 'r' :: 'u' :: 'e' :: rest) = some ⟨.bool true, hp, rest⟩ := by
  conv_lhs => rw [parseCore.eq_def]
  simp

theorem parseCore_val_false (f : Nat) (hp : Heap) (rest : List Char) :
    parseCore (f + 1) .val hp ('f' :: 'a' :: 'l' :: 's' :: 'e' :: rest) =
      some ⟨.bool false, hp, rest⟩ := by
  conv_lhs => rw [parseCore.eq_def]
  simp

theorem parseCore_val_str (f : Nat) (hp : Heap) (s : String) (rest : List Char) :
    (parseCore (f + 1) .val hp (jsonQuote s ++ rest)).map PRes.rest = some rest := by
  have hin : jsonQuote s ++ rest =
      '"' :: ((s.data.map jsonEscapeChar).flatten ++ '"' :: rest) := by
    simp [jsonQuote]
  rw [hin, parseCore_val_quote]
  have hesc := parseStringBody_escape s.data rest
  cases hpb : parseStringBody ((s.data.map jsonEscapeChar).flatten ++ '"' :: rest) with
  | none => rw [hpb] at hesc; simp at hesc
  | some p =>
    rw [hpb] at hesc
    simp only [Option.map_some'] at hesc
    simp [Option.map_some', PRes.rest, hesc]

theorem parseCore_val_lbrack_empty (f : Nat) (hp : Heap) (cs r : List Char)
    (h : skipWs cs = ']' :: r) :
    parseCore (f + 1) .val hp ('[' :: cs) =
      some ⟨.ref (freshAddr hp), (freshAddr hp, HObj.arr []) :: hp, r⟩ := by
  conv_lhs => rw [parseCore.eq_def]
  simp [h, allocObj]

theorem parseCore_val_lbrack_go (f : Nat) (hp : Heap) (cs cs2 : List Char) (c2 : Char)
    (h : skipWs cs = c2 :: cs2) (hne : c2 ≠ ']') :
    parseCore (f + 1) .val hp ('[' :: cs) = parseCore f (.items []) hp (c2 :: cs2) := by
  conv_lhs => rw [parseCore.eq_def]
  simp [h, hne]

theorem parseCore_val_lbrace_empty (f : Nat) (hp : Heap) (cs r : List Char)
    (h : skipWs cs = '\x7d' :: r) :
    parseCore (f + 1) .val hp ('\x7b' :: cs) =
      some ⟨.ref (freshAddr hp), (freshAddr hp, HObj.obj []) :: hp, r⟩ := by
  conv_lhs => rw [parseCore.eq_def]
  simp [h, allocObj]

theorem parseCore_val_lbrace_go (f : Nat) (hp : Heap) (cs cs2 : List Char) (c2 : Char)
    (h : skipWs cs = c2 :: cs2) (hne : c2 ≠ '\x7d') :
    parseCore (f + 1) .val hp ('\x7b' :: cs) = parseCore f (.members []) hp (c2 :: cs2) := by
  conv_lhs => rw [parseCore.eq_def]
  simp [h, hne]

theorem intercalate_cons_cons (sep a b : List Char) (l : List (List Char)) :
    List.intercalate sep (a :: b :: l) = a ++ sep ++ List.intercalate sep (b :: l) := by
  simp [List.intercalate, List.append_assoc]

/-- The pretty-printed container body equals its normal form. -/
theorem intercalate_eq_itemsBody (ind1 : List Char) :
    ∀ ps : List (List Char),
      List.intercalate [',', '\n'] (ps.map (fun p => ind1 ++ p)) = itemsBody ind1 ps := by
  intro ps
  induction ps with
  | nil => rfl
  | cons p ps ih =>
    cases ps with
    | nil => simp [itemsBody, List.intercalate]
    | cons q qs =>
      rw [List.map_cons, List.map_cons, intercalate_cons_cons, ← List.map_cons, ih]
      simp [itemsBody, List.append_assoc]

/-- Splitting the body plus array closer into current piece and loop tail. -/
theorem itemsBody_tail_decomp (ind1 ind0 tail : List Char) :
    ∀ (ps : List (List Char)) (p : List Char),
      itemsBody ind1 (p :: ps) ++ '\n' :: ind0 ++ ']' :: tail =
        ind1 ++ (p ++ itemsTail ind1 ind0 tail ps) := by
  intro ps
  induction ps with
  | nil =>
    intro p
    simp [itemsBody, itemsTail, List.append_assoc]
  | cons q qs ih =>
    intro p
    rw [show itemsBody ind1 (p :: q :: qs) =
        ind1 ++ p ++ ',' :: '\n' :: itemsBody ind1 (q :: qs) from rfl]
    rw [show itemsTail ind1 ind0 tail (q :: qs) =
        ',' :: '\n' :: ind1 ++ q ++ itemsTail ind1 ind0 tail qs from rfl]
    have hq := ih q
    simp only [List.append_assoc, List.cons_append] at hq ⊢
    rw [hq]

/-- Splitting the body plus object closer into current piece and loop tail. -/
theorem itemsBody_tail_decomp_obj (ind1 ind0 tail : List Char) :
    ∀ (ps : List (List Char)) (p : List Char),
      itemsBody ind1 (p :: ps) ++ '\n' :: ind0 ++ '\x7d' :: tail =
        ind1 ++ (p ++ membersTail ind1 ind0 tail ps) := by
  intro ps
  induction ps with
  | nil =>
    intro p
    simp [itemsBody, membersTail, List.append_assoc]
  | cons q qs ih =>
    intro p
    rw [show itemsBody ind1 (p :: q :: qs) =
        ind1 ++ p ++ ',' :: '\n' :: itemsBody ind1 (q :: qs) from rfl]
    rw [show membersTail ind1 ind0 tail (q :: qs) =
        ',' :: '\n' :: ind1 ++ q ++ membersTail ind1 ind0 tail qs from rfl]
    have hq := ih q
    simp only [List.append_assoc, List.cons_append] at hq ⊢
    rw [hq]

theorem itemsTail_append (ind1 ind0 tail : List Char) :
    ∀ ps, itemsTail ind1 ind0 tail ps = itemsTail ind1 ind0 [] ps ++ tail := by
  intro ps
  induction ps with
  | nil => simp [itemsTail]
  | cons q qs ih => simp [itemsTail, ih, List.append_assoc]

theorem membersTail_append (ind1 ind0 tail : List Char) :
    ∀ ps, membersTail ind1 ind0 tail ps = membersTail ind1 ind0 [] ps ++ tail := by
  intro ps
  induction ps with
  | nil => simp [membersTail]
  | cons q qs ih => simp [membersTail, ih, List.append_assoc]

theorem stopTok_itemsTail (ind1 ind0 tail : List Char) (ps : List (List Char)) :
    stopTok (itemsTail ind1 ind0 tail ps) = true := by
  cases ps <;> simp [itemsTail, stopTok]

theorem stopTok_membersTail (ind1 ind0 tail : List Char) (ps : List (List Char)) :
    stopTok (membersTail ind1 ind0 tail ps) = true := by
  cases ps <;> simp [membersTail, stopTok]

/-- A successful `dumpSeq` pairs every item with its serialization. -/
theorem dumpSeq_forall (rec : JVal → Option (List Char)) :
    ∀ (items : List JVal) (pieces : List (List Char)),
      dumpSeq rec items = some pieces →
      List.Forall₂ (fun v p => rec v = some p) items pieces := by
  intro items
  induction items with
  | nil =>
    intro pieces h
    simp only [dumpSeq, Option.some.injEq] at h
    subst h
    exact .nil
  | cons v vs ih =>
    intro pieces h
    simp only [dumpSeq] at h
    cases hv : rec v with
    | none => rw [hv] at h; simp at h
    | some s =>
      cases hs : dumpSeq rec vs with
      | none => rw [hv, hs] at h; simp at h
      | some ss =>
        rw [hv, hs] at h
        simp only [Option.some.injEq] at h
        subst h
        exact .cons hv (ih ss hs)

/-- A successful `dumpFieldsSeq` pairs every member with its key-value piece. -/
theorem dumpFieldsSeq_forall (rec : JVal → Option (List Char)) :
    ∀ (fields : List (String × JVal)) (pieces : List (List Char)),
      dumpFieldsSeq rec fields = some pieces →
      List.Forall₂ (fun kv p => ∃ vp, rec kv.2 = some vp ∧
        p = jsonQuote kv.1 ++ ':' :: ' ' :: vp) fields pieces := by
  intro fields
  induction fields with
  | nil =>
    intro pieces h
    simp only [dumpFieldsSeq, Option.some.injEq] at h
    subst h
    exact .nil
  | cons kv kvs ih =>
    intro pieces h
    obtain ⟨k, v⟩ := kv
    simp only [dumpFieldsSeq] at h
    cases hv : rec v with
    | none => rw [hv] at h; simp at h
    | some s =>
      cases hs : dumpFieldsSeq rec kvs with
      | none => rw [hv, hs] at h; simp at h
      | some ss =>
        rw [hv, hs] at h
        simp only [Option.some.injEq] at h
        subst h
        exact .cons ⟨s, hv, rfl⟩ (ih ss hs)

theorem isWsChar_nl : isWsChar '\n' = true := by decide

/-- The array-item loop of the parser consumes the current pretty-printed
piece and the loop tail, closing at the bracket and leaving the trailer. -/
theorem parse_items_loop (ind1 ind0 : List Char) (hind1 : ind1.all isWsChar = true)
    (hind0 : ind0.all isWsChar = true) :
    ∀ (ps : List (List Char)),
      (∀ q ∈ ps, (∃ c cs, q = c :: cs ∧ isWsChar c = false) ∧
        (∀ f2 hp2 r2, stopTok r2 = true → q.length + 1 ≤ f2 →
          (parseCore f2 .val hp2 (q ++ r2)).map PRes.rest = some r2)) →
      ∀ (p : List Char) (g : Nat) (acc : List JVal) (hp : Heap) (tail : List Char),
        (∀ f2 hp2 r2, stopTok r2 = true → p.length + 1 ≤ f2 →
          (parseCore f2 .val hp2 (p ++ r2)).map PRes.rest = some r2) →
        p.length + (itemsTail ind1 ind0 [] ps).length + 1 ≤ g →
        (parseCore g (.items acc) hp (p ++ itemsTail ind1 ind0 tail ps)).map PRes.rest =
          some tail := by
  intro ps
  induction ps with
  | nil =>
    intro hps p g acc hp tail hparse hg
    have hlen : (itemsTail ind1 ind0 [] ([] : List (List Char))).length = ind0.length + 2 := by
      simp only [itemsTail, List.length_cons, List.length_append, List.length_nil]
      try omega
    cases g with
    | zero => omega
    | succ g =>
      rw [parseCore_items_unfold]
      have hv := hparse g hp (itemsTail ind1 ind0 tail []) (stopTok_itemsTail _ _ _ _)
        (by omega)
      cases hpc : parseCore g .val hp (p ++ itemsTail ind1 ind0 tail []) with
      | none => rw [hpc] at hv; simp at hv
      | some r =>
        rw [hpc] at hv
        simp only [Option.map_some'] at hv
        injection hv with hv
        simp only [hpc]
        rw [hv, show itemsTail ind1 ind0 tail ([] : List (List Char)) =
            ('\n' :: ind0) ++ ']' :: tail from by simp [itemsTail]]
        rw [skipWs_ws_append ('\n' :: ind0) _ (by simp [List.all_cons, isWsChar_nl, hind0]),
          skipWs_cons_not_ws ']' tail (by decide)]
        simp
  | cons q qs ih =>
    intro hps p g acc hp tail hparse hg
    obtain ⟨⟨c, cs, hqeq, hcw⟩, hqparse⟩ := hps q (List.mem_cons_self q qs)
    have hqs := fun q2 hq2 => hps q2 (List.mem_cons_of_mem q hq2)
    have hlen1 : (itemsTail ind1 ind0 [] (q :: qs)).length =
        ind1.length + q.length + (itemsTail ind1 ind0 [] qs).length + 2 := by
      simp only [itemsTail, List.length_cons, List.length_append, List.length_nil]
      try omega
    cases g with
    | zero => omega
    | succ g =>
      rw [show itemsTail ind1 ind0 tail (q :: qs) =
          ',' :: '\n' :: ind1 ++ q ++ itemsTail ind1 ind0 tail qs from rfl]
      rw [parseCore_items_unfold]
      have hstop : stopTok (',' :: '\n' :: ind1 ++ q ++ itemsTail ind1 ind0 tail qs) = true := by
        simp [stopTok]
      have hv := hparse g hp (',' :: '\n' :: ind1 ++ q ++ itemsTail ind1 ind0 tail qs) hstop
        (by omega)
      cases hpc : parseCore g .val hp
          (p ++ (',' :: '\n' :: ind1 ++ q ++ itemsTail ind1 ind0 tail qs)) with
      | none => rw [hpc] at hv; simp at hv
      | some r =>
        rw [hpc] at hv
        simp only [Option.map_some'] at hv
        injection hv with hv
        simp only [hpc]
        rw [hv]
        have hsk : skipWs (',' :: '\n' :: ind1 ++ q ++ itemsTail ind1 ind0 tail qs) =
            ',' :: '\n' :: ind1 ++ q ++ itemsTail ind1 ind0 tail qs :=
          skipWs_cons_not_ws _ _ (by decide)
        rw [hsk]
        have hskip : skipWs ('\n' :: (ind1 ++ (q ++ itemsTail ind1 ind0 tail qs))) =
            q ++ itemsTail ind1 ind0 tail qs := by
          rw [show ('\n' :: (ind1 ++ (q ++ itemsTail ind1 ind0 tail qs)) : List Char) =
              ('\n' :: ind1) ++ (q ++ itemsTail ind1 ind0 tail qs) from rfl]
          rw [skipWs_ws_append ('\n' :: ind1) _ (by simp [List.all_cons, isWsChar_nl, hind1])]
          rw [show q ++ itemsTail ind1 ind0 tail qs = c :: (cs ++ itemsTail ind1 ind0 tail qs)
              from by rw [hqeq]; simp]
          exact skipWs_cons_not_ws c _ hcw
        have hmain := ih hqs q g (acc ++ [r.val]) r.heap tail hqparse (by omega)
        simpa [hskip] using hmain

/-- The object-member loop of the parser consumes the current pretty-printed
member and the loop tail, closing at the brace and leaving the trailer. -/
theorem parse_members_loop (ind1 ind0 : List Char) (hind1 : ind1.all isWsChar = true)
    (hind0 : ind0.all isWsChar = true) :
    ∀ (ps : List (List Char)),
      (∀ q ∈ ps, ∃ k2 vp2, q = jsonQuote k2 ++ ':' :: ' ' :: vp2 ∧
        (∃ c cs, vp2 = c :: cs ∧ isWsChar c = false) ∧
        (∀ f2 hp2 r2, stopTok r2 = true → vp2.length + 1 ≤ f2 →
          (parseCore f2 .val hp2 (vp2 ++ r2)).map PRes.rest = some r2)) →
      ∀ (k : String) (vp : List Char) (g : Nat) (acc : List (String × JVal)) (hp : Heap)
        (tail : List Char),
        (∃ c cs, vp = c :: cs ∧ isWsChar c = false) →
        (∀ f2 hp2 r2, stopTok r2 = true → vp.length + 1 ≤ f2 →
          (parseCore f2 .val hp2 (vp ++ r2)).map PRes.rest = some r2) →
        (jsonQuote k).length + vp.length + (membersTail ind1 ind0 [] ps).length + 3 ≤ g →
        (parseCore g (.members acc) hp
          ((jsonQuote k ++ ':' :: ' ' :: vp) ++ membersTail ind1 ind0 tail ps)).map PRes.rest =
          some tail := by
  intro ps
  induction ps with
  | nil =>
    intro hps k vp g acc hp tail hvph hvp hg
    obtain ⟨c, cs, hvpeq, hcw⟩ := hvph
    have hlen : (membersTail ind1 ind0 [] ([] : List (List Char))).length = ind0.length + 2 := by
      simp only [membersTail, List.length_cons, List.length_append, List.length_nil]
      try omega
    cases g with
    | zero => omega
    | succ g =>
      have hin : (jsonQuote k ++ ':' :: ' ' :: vp) ++ membersTail ind1 ind0 tail [] =
          '"' :: ((k.data.map jsonEscapeChar).flatten ++
            '"' :: (':' :: ' ' :: (vp ++ membersTail ind1 ind0 tail []))) := by
        simp [jsonQuote, List.append_assoc, List.cons_append]
      rw [hin, parseCore_members_unfold]
      have hesc := parseStringBody_escape k.data
        (':' :: ' ' :: (vp ++ membersTail ind1 ind0 tail []))
      cases hpb : parseStringBody ((k.data.map jsonEscapeChar).flatten ++
          '"' :: (':' :: ' ' :: (vp ++ membersTail ind1 ind0 tail []))) with
      | none => rw [hpb] at hesc; simp at hesc
      | some pk =>
        obtain ⟨kk, r1⟩ := pk
        rw [hpb] at hesc
        simp only [Option.map_some'] at hesc
        injection hesc with hesc
        try simp only at hesc
        subst hesc
        simp only [hpb]
        have hsk1 : skipWs (':' :: ' ' :: (vp ++ membersTail ind1 ind0 tail [])) =
            ':' :: ' ' :: (vp ++ membersTail ind1 ind0 tail []) :=
          skipWs_cons_not_ws _ _ (by decide)
        rw [hsk1]
        have hskip : skipWs (' ' :: (vp ++ membersTail ind1 ind0 tail [])) =
            vp ++ membersTail ind1 ind0 tail [] := by
          rw [show (' ' :: (vp ++ membersTail ind1 ind0 tail []) : List Char) =
              ([' '] : List Char) ++ (vp ++ membersTail ind1 ind0 tail []) from rfl]
          rw [skipWs_ws_append [' '] _ (by decide)]
          rw [show vp ++ membersTail ind1 ind0 tail [] =
              c :: (cs ++ membersTail ind1 ind0 tail []) from by rw [hvpeq]; simp]
          exact skipWs_cons_not_ws c _ hcw
        have hv := hvp g hp (membersTail ind1 ind0 tail []) (stopTok_membersTail _ _ _ _)
          (by omega)
        cases hpc : parseCore g .val hp (vp ++ membersTail ind1 ind0 tail []) with
        | none => rw [hpc] at hv; simp at hv
        | some r =>
          obtain ⟨v, h2, r3⟩ := r
          rw [hpc] at hv
          simp only [Option.map_some'] at hv
          injection hv with hv
          try simp only at hv
          subst hv
          simp only [hskip, hpc]
          rw [show membersTail ind1 ind0 tail ([] : List (List Char)) =
              ('\n' :: ind0) ++ '\x7d' :: tail from by simp [membersTail]]
          rw [skipWs_ws_append ('\n' :: ind0) _ (by simp [List.all_cons, isWsChar_nl, hind0]),
            skipWs_cons_not_ws '\x7d' tail (by decide)]
          simp
  | cons q2 qs ih =>
    intro hps k vp g acc hp tail hvph hvp hg
    obtain ⟨c, cs, hvpeq, hcw⟩ := hvph
    obtain ⟨k2, vp2, hq2eq, hvp2h, hvp2parse⟩ := hps q2 (List.mem_cons_self q2 qs)
    have hqs := fun q3 hq3 => hps q3 (List.mem_cons_of_mem q2 hq3)
    have hlen1 : (membersTail ind1 ind0 [] (q2 :: qs)).length =
        ind1.length + q2.length + (membersTail ind1 ind0 [] qs).length + 2 := by
      simp only [membersTail, List.length_cons, List.length_append, List.length_nil]
      try omega
    have hq2len : q2.length = (jsonQuote k2).length + vp2.length + 2 := by
      rw [hq2eq]
      simp only [List.length_append, List.length_cons]
      try omega
    cases g with
    | zero => omega
    | succ g =>
      have hin : (jsonQuote k ++ ':' :: ' ' :: vp) ++ membersTail ind1 ind0 tail (q2 :: qs) =
          '"' :: ((k.data.map jsonEscapeChar).flatten ++
            '"' :: (':' :: ' ' :: (vp ++ membersTail ind1 ind0 tail (q2 :: qs)))) := by
        simp [jsonQuote, List.append_assoc, List.cons_append]
      rw [hin, parseCore_members_unfold]
      have hesc := parseStringBody_escape k.data
        (':' :: ' ' :: (vp ++ membersTail ind1 ind0 tail (q2 :: qs)))
      cases hpb : parseStringBody ((k.data.map jsonEscapeChar).flatten ++
          '"' :: (':' :: ' ' :: (vp ++ membersTail ind1 ind0 tail (q2 :: qs)))) with
      | none => rw [hpb] at hesc; simp at hesc
      | some pk =>
        obtain ⟨kk, r1⟩ := pk
        rw [hpb] at hesc
        simp only [Option.map_some'] at hesc
        injection hesc with hesc
        try simp only at hesc
        subst hesc
        simp only [hpb]
        have hsk1 : skipWs (':' :: ' ' :: (vp ++ membersTail ind1 ind0 tail (q2 :: qs))) =
            ':' :: ' ' :: (vp ++ membersTail ind1 ind0 tail (q2 :: qs)) :=
          skipWs_cons_not_ws _ _ (by decide)
        rw [hsk1]
        have hskip : skipWs (' ' :: (vp ++ membersTail ind1 ind0 tail (q2 :: qs))) =
            vp ++ membersTail ind1 ind0 tail (q2 :: qs) := by
          rw [show (' ' :: (vp ++ membersTail ind1 ind0 tail (q2 :: qs)) : List Char) =
              ([' '] : List Char) ++ (vp ++ membersTail ind1 ind0 tail (q2 :: qs)) from rfl]
          rw [skipWs_ws_append [' '] _ (by decide)]
          rw [show vp ++ membersTail ind1 ind0 tail (q2 :: qs) =
              c :: (cs ++ membersTail ind1 ind0 tail (q2 :: qs)) from by rw [hvpeq]; simp]
          exact skipWs_cons_not_ws c _ hcw
        have hv := hvp g hp (membersTail ind1 ind0 tail (q2 :: qs))
          (stopTok_membersTail _ _ _ _) (by omega)
        cases hpc : parseCore g .val hp (vp ++ membersTail ind1 ind0 tail (q2 :: qs)) with
        | none => rw [hpc] at hv; simp at hv
        | some r =>
          obtain ⟨v, h2, r3⟩ := r
          rw [hpc] at hv
          simp only [Option.map_some'] at hv
          injection hv with hv
          try simp only at hv
          subst hv
          simp only [hskip, hpc]
          rw [show membersTail ind1 ind0 tail (q2 :: qs) =
              ',' :: '\n' :: ind1 ++ q2 ++ membersTail ind1 ind0 tail qs from rfl]
          have hsk2 : skipWs (',' :: '\n' :: ind1 ++ q2 ++ membersTail ind1 ind0 tail qs) =
              ',' :: '\n' :: ind1 ++ q2 ++ membersTail ind1 ind0 tail qs :=
            skipWs_cons_not_ws _ _ (by decide)
          rw [hsk2]
          have hq2head : ∃ c2 cc, q2 = c2 :: cc ∧ isWsChar c2 = false := by
            rw [hq2eq]
            refine ⟨'"', (k2.data.map jsonEscapeChar).flatten ++ '"' :: (':' :: ' ' :: vp2),
              ?_, by decide⟩
            simp [jsonQuote, List.append_assoc, List.cons_append]
          obtain ⟨c2, cc, hc2eq, hc2w⟩ := hq2head
          have hskip2 : skipWs ('\n' :: (ind1 ++
                (jsonQuote k2 ++ ':' :: ' ' :: (vp2 ++ membersTail ind1 ind0 tail qs)))) =
              jsonQuote k2 ++ ':' :: ' ' :: (vp2 ++ membersTail ind1 ind0 tail qs) := by
            rw [show ('\n' :: (ind1 ++
                (jsonQuote k2 ++ ':' :: ' ' :: (vp2 ++ membersTail ind1 ind0 tail qs))) :
                List Char) = ('\n' :: ind1) ++
                (jsonQuote k2 ++ ':' :: ' ' :: (vp2 ++ membersTail ind1 ind0 tail qs)) from rfl]
            rw [skipWs_ws_append ('\n' :: ind1) _ (by simp [List.all_cons, isWsChar_nl, hind1])]
            rw [show jsonQuote k2 ++ ':' :: ' ' :: (vp2 ++ membersTail ind1 ind0 tail qs) =
                '"' :: (((k2.data.map jsonEscapeChar).flatten ++ ['"']) ++
                  (':' :: ' ' :: (vp2 ++ membersTail ind1 ind0 tail qs))) from rfl]
            exact skipWs_cons_not_ws '"' _ (by decide)
          have hmain := ih hqs k2 vp2 g (acc ++ [(String.mk kk, v)]) h2 tail hvp2h hvp2parse
            (by omega)
          simpa [hskip2, hq2eq] using hmain

/-- An object found in a float-free heap is itself float-free. -/
theorem heapNoFloat_lookup : ∀ (h : Heap), heapNoFloat h = true →
    ∀ (a : Nat) (o : HObj), lookupHeap h a = some o → hObjNoFloat o = true := by
  intro h
  induction h with
  | nil => intro _ a o hl; simp [lookupHeap] at hl
  | cons e t ih =>
    intro hnf a o hl
    obtain ⟨b, o2⟩ := e
    simp only [heapNoFloat, List.all_cons, Bool.and_eq_true] at hnf
    simp only [lookupHeap] at hl
    by_cases hb : b = a
    · rw [if_pos hb] at hl
      injection hl with hl
      subst hl
      exact hnf.1
    · rw [if_neg hb] at hl
      exact ih (by simpa [heapNoFloat] using hnf.2) a o hl

theorem mem_right_of_forall2 {α β : Type} {R : α → β → Prop} :
    ∀ {l1 : List α} {l2 : List β}, List.Forall₂ R l1 l2 →
      ∀ b ∈ l2, ∃ a, a ∈ l1 ∧ R a b := by
  intro l1 l2 hf
  induction hf with
  | nil => intro b hb; simp at hb
  | cons hR hrest ih =>
    intro b hb
    rcases List.mem_cons.mp hb with hb | hb
    · exact ⟨_, List.mem_cons_self _ _, hb ▸ hR⟩
    · obtain ⟨a, ha, hr⟩ := ih b hb
      exact ⟨a, List.mem_cons_of_mem _ ha, hr⟩

theorem dumpVal_ref_arr_cons (h : Heap) (fuel : Nat) (seen : List Nat) (lvl : Nat) (a : Nat)
    (i0 : JVal) (irest : List JVal) (hmem : a ∉ seen)
    (hlook : lookupHeap h a = some (.arr (i0 :: irest))) :
    dumpVal h true (fuel + 1) seen lvl (.ref a) =
      (dumpSeq (dumpVal h true fuel (a :: seen) (lvl + 1)) (i0 :: irest)).map (fun pieces =>
        '[' :: '\n' :: List.intercalate [',', '\n']
            (pieces.map (fun p => indentOf (lvl + 1) ++ p)) ++
          '\n' :: indentOf lvl ++ [']']) := by
  conv_lhs => rw [dumpVal.eq_def]
  simp [hmem, hlook]

theorem dumpVal_ref_obj_cons (h : Heap) (fuel : Nat) (seen : List Nat) (lvl : Nat) (a : Nat)
    (f0 : String × JVal) (frest : List (String × JVal)) (hmem : a ∉ seen)
    (hlook : lookupHeap h a = some (.obj (f0 :: frest))) :
    dumpVal h true (fuel + 1) seen lvl (.ref a) =
      (dumpFieldsSeq (dumpVal h true fuel (a :: seen) (lvl + 1)) (f0 :: frest)).map
        (fun pieces =>
          '\x7b' :: '\n' :: List.intercalate [',', '\n']
              (pieces.map (fun p => indentOf (lvl + 1) ++ p)) ++
            '\n' :: indentOf lvl ++ ['\x7d']) := by
  conv_lhs => rw [dumpVal.eq_def]
  simp [hmem, hlook]

/-- Core round trip: a pretty-mode serialization of a float-free value
starts with a non-whitespace, non-closing character and parses back in
value mode, consuming exactly the serialized characters. -/
theorem parse_dumpVal (h : Heap) (hnf : heapNoFloat h = true) :
    ∀ (fuel : Nat) (seen : List Nat) (lvl : Nat) (v : JVal) (s : List Char),
      jvNoFloat v = true →
      dumpVal h true fuel seen lvl v = some s →
      (∃ c cs, s = c :: cs ∧ isWsChar c = false ∧ c ≠ ']' ∧ c ≠ '\x7d') ∧
      (∀ f2 hp2 r2, stopTok r2 = true → s.length + 1 ≤ f2 →
        (parseCore f2 .val hp2 (s ++ r2)).map PRes.rest = some r2) := by
  intro fuel
  induction fuel with
  | zero =>
    intro seen lvl v s hv hd
    simp [dumpVal] at hd
  | succ fuel ih =>
    intro seen lvl v s hv hd
    cases v with
    | null =>
      simp only [dumpVal, Option.some.injEq] at hd
      subst hd
      refine ⟨⟨'n', ['u', 'l', 'l'], rfl, by decide, by decide, by decide⟩, ?_⟩
      intro f2 hp2 r2 hstop hf2
      cases f2 with
      | zero => exact absurd hf2 (by decide)
      | succ f2 =>
        rw [show ("null".data ++ r2 : List Char) = 'n' :: 'u' :: 'l' :: 'l' :: r2 from rfl]
        rw [parseCore_val_null]
        rfl
    | bool b =>
      cases b with
      | true =>
        simp only [dumpVal, Option.some.injEq] at hd
        subst hd
        refine ⟨⟨'t', ['r', 'u', 'e'], rfl, by decide, by decide, by decide⟩, ?_⟩
        intro f2 hp2 r2 hstop hf2
        cases f2 with
        | zero => exact absurd hf2 (by decide)
        | succ f2 =>
          rw [show ("true".data ++ r2 : List Char) = 't' :: 'r' :: 'u' :: 'e' :: r2 from rfl]
          rw [parseCore_val_true]
          rfl
      | false =>
        simp only [dumpVal, Option.some.injEq] at hd
        subst hd
        refine ⟨⟨'f', ['a', 'l', 's', 'e'], rfl, by decide, by decide, by decide⟩, ?_⟩
        intro f2 hp2 r2 hstop hf2
        cases f2 with
        | zero => exact absurd hf2 (by decide)
        | succ f2 =>
          rw [show ("false".data ++ r2 : List Char) =
            'f' :: 'a' :: 'l' :: 's' :: 'e' :: r2 from rfl]
          rw [parseCore_val_false]
          rfl
    | num n =>
      simp only [dumpVal, Option.some.injEq] at hd
      subst hd
      constructor
      · cases n with
        | ofNat m =>
          obtain ⟨hall, c, cs, heq, hcd, hcz⟩ := natDigits_spec m
          obtain ⟨_, _, _, _, _, _, hws2, hne7, hne8, _⟩ := digit_char_facts hcd
          exact ⟨c, cs, by rw [show pyIntRepr (Int.ofNat m) = natDigits m from rfl, heq],
            hws2, hne7, hne8⟩
        | negSucc m =>
          exact ⟨'-', natDigits (m + 1), rfl, by decide, by decide, by decide⟩
      · intro f2 hp2 r2 hstop hf2
        cases f2 with
        | zero => omega
        | succ f2 => exact parseCore_val_int f2 hp2 n r2 hstop
    | pyfloat lit => exact absurd hv (by simp [jvNoFloat])
    | str str =>
      simp only [dumpVal, Option.some.injEq] at hd
      subst hd
      refine ⟨⟨'"', (str.data.map jsonEscapeChar).flatten ++ ['"'], rfl, by decide, by decide,
        by decide⟩, ?_⟩
      intro f2 hp2 r2 hstop hf2
      cases f2 with
      | zero => omega
      | succ f2 => exact parseCore_val_str f2 hp2 str r2
    | ref a =>
      by_cases hmem : a ∈ seen
      · rw [show dumpVal h true (fuel + 1) seen lvl (.ref a) = none from by
          conv_lhs => rw [dumpVal.eq_def]
          simp [hmem]] at hd
        exact absurd hd (by simp)
      · cases hlook : lookupHeap h a with
        | none =>
          rw [show dumpVal h true (fuel + 1) seen lvl (.ref a) = none from by
            conv_lhs => rw [dumpVal.eq_def]
            simp [hmem, hlook]] at hd
          exact absurd hd (by simp)
        | some o =>
          have honf : hObjNoFloat o = true := heapNoFloat_lookup h hnf a o hlook
          cases o with
          | arr items =>
            cases items with
            | nil =>
              rw [show dumpVal h true (fuel + 1) seen lvl (.ref a) = some ['[', ']'] from by
                conv_lhs => rw [dumpVal.eq_def]
                simp [hmem, hlook]] at hd
              injection hd with hd
              subst hd
              refine ⟨⟨'[', [']'], rfl, by decide, by decide, by decide⟩, ?_⟩
              intro f2 hp2 r2 hstop hf2
              cases f2 with
              | zero => exact absurd hf2 (by decide)
              | succ f2 =>
                rw [show (['[', ']'] ++ r2 : List Char) = '[' :: (']' :: r2) from rfl]
                rw [parseCore_val_lbrack_empty f2 hp2 (']' :: r2) r2
                  (skipWs_cons_not_ws ']' r2 (by decide))]
                rfl
            | cons i0 irest =>
              rw [dumpVal_ref_arr_cons h fuel seen lvl a i0 irest hmem hlook] at hd
              rw [Option.map_eq_some'] at hd
              obtain ⟨pieces, hdump, hs⟩ := hd
              have hfa := dumpSeq_forall (dumpVal h true fuel (a :: seen) (lvl + 1))
                (i0 :: irest) pieces hdump
              rw [List.forall₂_cons_left_iff] at hfa
              obtain ⟨p0, prest, hp0d, hrest, hpieq⟩ := hfa
              subst hpieq
              have hitems_nf : ∀ it ∈ i0 :: irest, jvNoFloat it = true := by
                have h2 : hObjNoFloat (.arr (i0 :: irest)) = true := honf
                simpa [hObjNoFloat, List.all_eq_true] using h2
              have hfa2 : List.Forall₂
                  (fun v p => dumpVal h true fuel (a :: seen) (lvl + 1) v = some p)
                  (i0 :: irest) (p0 :: prest) := List.Forall₂.cons hp0d hrest
              have hfacts : ∀ q ∈ p0 :: prest,
                  (∃ c cs, q = c :: cs ∧ isWsChar c = false ∧ c ≠ ']' ∧ c ≠ '\x7d') ∧
                  (∀ f2 hp2 r2, stopTok r2 = true → q.length + 1 ≤ f2 →
                    (parseCore f2 .val hp2 (q ++ r2)).map PRes.rest = some r2) := by
                intro q hq
                obtain ⟨it, hit, hdq⟩ := mem_right_of_forall2 hfa2 q hq
                exact ih (a :: seen) (lvl + 1) it q (hitems_nf it hit) hdq
              obtain ⟨⟨c0, cs0, hp0eq, hc0w, hc0r, hc0b⟩, hp0parse⟩ :=
                hfacts p0 (List.mem_cons_self _ _)
              subst hs
              refine ⟨⟨'[', _, rfl, by decide, by decide, by decide⟩, ?_⟩
              intro f2 hp2 r2 hstop hf2
              have hinput : (('[' :: '\n' :: List.intercalate [',', '\n']
                    ((p0 :: prest).map (fun p => indentOf (lvl + 1) ++ p)) ++
                  '\n' :: indentOf lvl ++ [']']) ++ r2 : List Char) =
                  '[' :: ('\n' :: (indentOf (lvl + 1) ++
                    (p0 ++ itemsTail (indentOf (lvl + 1)) (indentOf lvl) r2 prest))) := by
                rw [intercalate_eq_itemsBody]
                have hdec := itemsBody_tail_decomp (indentOf (lvl + 1)) (indentOf lvl) r2
                  prest p0
                simp only [List.append_assoc, List.cons_append, List.nil_append] at hdec ⊢
                rw [hdec]
              rw [hinput]
              rw [intercalate_eq_itemsBody] at hf2
              cases f2 with
              | zero => omega
              | succ f2 =>
                have hskipA : skipWs ('\n' :: (indentOf (lvl + 1) ++
                    (p0 ++ itemsTail (indentOf (lvl + 1)) (indentOf lvl) r2 prest))) =
                    c0 :: (cs0 ++ itemsTail (indentOf (lvl + 1)) (indentOf lvl) r2 prest) := by
                  rw [show ('\n' :: (indentOf (lvl + 1) ++
                      (p0 ++ itemsTail (indentOf (lvl + 1)) (indentOf lvl) r2 prest)) :
                      List Char) = ('\n' :: indentOf (lvl + 1)) ++
                      (p0 ++ itemsTail (indentOf (lvl + 1)) (indentOf lvl) r2 prest) from rfl]
                  rw [skipWs_ws_append _ _ (by simp [List.all_cons, isWsChar_nl,
                    indentOf_all_ws])]
                  rw [show p0 ++ itemsTail (indentOf (lvl + 1)) (indentOf lvl) r2 prest =
                      c0 :: (cs0 ++ itemsTail (indentOf (lvl + 1)) (indentOf lvl) r2 prest)
                    from by rw [hp0eq]; simp]
                  exact skipWs_cons_not_ws c0 _ hc0w
                rw [parseCore_val_lbrack_go f2 hp2 _ _ c0 hskipA hc0r]
                rw [show (c0 :: (cs0 ++ itemsTail (indentOf (lvl + 1)) (indentOf lvl) r2 prest) :
                    List Char) = p0 ++ itemsTail (indentOf (lvl + 1)) (indentOf lvl) r2 prest
                  from by rw [hp0eq]; simp]
                have hlen2 := congrArg List.length
                  (itemsBody_tail_decomp (indentOf (lvl + 1)) (indentOf lvl) [] prest p0)
                simp only [List.length_append, List.length_cons, List.length_nil] at hlen2
                simp only [List.length_append, List.length_cons, List.length_nil] at hf2
                refine parse_items_loop (indentOf (lvl + 1)) (indentOf lvl)
                  (indentOf_all_ws _) (indentOf_all_ws _) prest ?_ p0 f2 [] hp2 r2 hp0parse
                  (by omega)
                intro q hq
                obtain ⟨⟨c, cs, hceq, hcw, _, _⟩, hqp⟩ := hfacts q (List.mem_cons_of_mem _ hq)
                exact ⟨⟨c, cs, hceq, hcw⟩, hqp⟩
          | obj fields =>
            cases fields with
            | nil =>
              rw [show dumpVal h true (fuel + 1) seen lvl (.ref a) = some ['\x7b', '\x7d']
                from by
                conv_lhs => rw [dumpVal.eq_def]
                simp [hmem, hlook]] at hd
              injection hd with hd
              subst hd
              refine ⟨⟨'\x7b', ['\x7d'], rfl, by decide, by decide, by decide⟩, ?_⟩
              intro f2 hp2 r2 hstop hf2
              cases f2 with
              | zero => exact absurd hf2 (by decide)
              | succ f2 =>
                rw [show (['\x7b', '\x7d'] ++ r2 : List Char) = '\x7b' :: ('\x7d' :: r2)
                  from rfl]
                rw [parseCore_val_lbrace_empty f2 hp2 ('\x7d' :: r2) r2
                  (skipWs_cons_not_ws '\x7d' r2 (by decide))]
                rfl
            | cons f0 frest =>
              rw [dumpVal_ref_obj_cons h fuel seen lvl a f0 frest hmem hlook] at hd
              rw [Option.map_eq_some'] at hd
              obtain ⟨pieces, hdump, hs⟩ := hd
              have hfa := dumpFieldsSeq_forall (dumpVal h true fuel (a :: seen) (lvl + 1))
                (f0 :: frest) pieces hdump
              rw [List.forall₂_cons_left_iff] at hfa
              obtain ⟨p0, prest, hp0d, hrest, hpieq⟩ := hfa
              subst hpieq
              have hfields_nf : ∀ kv ∈ f0 :: frest, jvNoFloat kv.2 = true := by
                have h2 : hObjNoFloat (.obj (f0 :: frest)) = true := honf
                simpa [hObjNoFloat, List.all_eq_true] using h2
              have hfa2 : List.Forall₂
                  (fun kv p => ∃ vp, dumpVal h true fuel (a :: seen) (lvl + 1) kv.2 = some vp ∧
                    p = jsonQuote kv.1 ++ ':' :: ' ' :: vp)
                  (f0 :: frest) (p0 :: prest) := List.Forall₂.cons hp0d hrest
              have hfactsM : ∀ q ∈ p0 :: prest, ∃ k2 vp2,
                  q = jsonQuote k2 ++ ':' :: ' ' :: vp2 ∧
                  (∃ c cs, vp2 = c :: cs ∧ isWsChar c = false) ∧
                  (∀ f2 hp2 r2, stopTok r2 = true → vp2.length + 1 ≤ f2 →
                    (parseCore f2 .val hp2 (vp2 ++ r2)).map PRes.rest = some r2) := by
                intro q hq
                obtain ⟨kv, hkv, vp, hvpd, hqe⟩ := mem_right_of_forall2 hfa2 q hq
                obtain ⟨⟨c, cs, hceq, hcw, _, _⟩, hvparse⟩ :=
                  ih (a :: seen) (lvl + 1) kv.2 vp (hfields_nf kv hkv) hvpd
                exact ⟨kv.1, vp, hqe, ⟨c, cs, hceq, hcw⟩, hvparse⟩
              obtain ⟨k0, vp0, hp0eq, hvp0h, hvp0parse⟩ := hfactsM p0 (List.mem_cons_self _ _)
              have hp0head : p0 = '"' :: (((k0.data.map jsonEscapeChar).flatten ++ ['"']) ++
                  (':' :: ' ' :: vp0)) := by
                rw [hp0eq]
                simp [jsonQuote, List.append_assoc, List.cons_append]
              have hp0len : p0.length = (jsonQuote k0).length + vp0.length + 2 := by
                rw [hp0eq]
                simp only [List.length_append, List.length_cons]
                try omega
              subst hs
              refine ⟨⟨'\x7b', _, rfl, by decide, by decide, by decide⟩, ?_⟩
              intro f2 hp2 r2 hstop hf2
              have hinput : (('\x7b' :: '\n' :: List.intercalate [',', '\n']
                    ((p0 :: prest).map (fun p => indentOf (lvl + 1) ++ p)) ++
                  '\n' :: indentOf lvl ++ ['\x7d']) ++ r2 : List Char) =
                  '\x7b' :: ('\n' :: (indentOf (lvl + 1) ++
                    (p0 ++ membersTail (indentOf (lvl + 1)) (indentOf lvl) r2 prest))) := by
                rw [intercalate_eq_itemsBody]
                have hdec := itemsBody_tail_decomp_obj (indentOf (lvl + 1)) (indentOf lvl) r2
                  prest p0
                simp only [List.append_assoc, List.cons_append, List.nil_append] at hdec ⊢
                rw [hdec]
              rw [hinput]
              rw [intercalate_eq_itemsBody] at hf2
              cases f2 with
              | zero => omega
              | succ f2 =>
                have hskipA : skipWs ('\n' :: (indentOf (lvl + 1) ++
                    (p0 ++ membersTail (indentOf (lvl + 1)) (indentOf lvl) r2 prest))) =
                    '"' :: ((((k0.data.map jsonEscapeChar).flatten ++ ['"']) ++
                      (':' :: ' ' :: vp0)) ++
                      membersTail (indentOf (lvl + 1)) (indentOf lvl) r2 prest) := by
                  rw [show ('\n' :: (indentOf (lvl + 1) ++
                      (p0 ++ membersTail (indentOf (lvl + 1)) (indentOf lvl) r2 prest)) :
                      List Char) = ('\n' :: indentOf (lvl + 1)) ++
                      (p0 ++ membersTail (indentOf (lvl + 1)) (indentOf lvl) r2 prest)
                    from rfl]
                  rw [skipWs_ws_append _ _ (by simp [List.all_cons, isWsChar_nl,
                    indentOf_all_ws])]
                  rw [show p0 ++ membersTail (indentOf (lvl + 1)) (indentOf lvl) r2 prest =
                      '"' :: ((((k0.data.map jsonEscapeChar).flatten ++ ['"']) ++
                        (':' :: ' ' :: vp0)) ++
                        membersTail (indentOf (lvl + 1)) (indentOf lvl) r2 prest)
                    from by rw [hp0head]; simp]
                  exact skipWs_cons_not_ws '"' _ (by decide)
                rw [parseCore_val_lbrace_go f2 hp2 _ _ '"' hskipA (by decide)]
                rw [show ('"' :: ((((k0.data.map jsonEscapeChar).flatten ++ ['"']) ++
                    (':' :: ' ' :: vp0)) ++
                    membersTail (indentOf (lvl + 1)) (indentOf lvl) r2 prest) : List Char) =
                    (jsonQuote k0 ++ ':' :: ' ' :: vp0) ++
                      membersTail (indentOf (lvl + 1)) (indentOf lvl) r2 prest
                  from by simp [jsonQuote, List.append_assoc, List.cons_append]]
                have hlen2 := congrArg List.length
                  (itemsBody_tail_decomp_obj (indentOf (lvl + 1)) (indentOf lvl) [] prest p0)
                simp only [List.length_append, List.length_cons, List.length_nil] at hlen2
                simp only [List.length_append, List.length_cons, List.length_nil] at hf2
                refine parse_members_loop (indentOf (lvl + 1)) (indentOf lvl)
                  (indentOf_all_ws _) (indentOf_all_ws _) prest ?_ k0 vp0 f2 [] hp2 r2 hvp0h
                  hvp0parse (by omega)
                intro q hq
                exact hfactsM q (List.mem_cons_of_mem _ hq)

theorem stopTok_membersTailC (tail : List Char) (ps : List (List Char)) :
    stopTok (membersTailC tail ps) = true := by
  cases ps <;> simp [membersTailC, stopTok]

/-- Compact-mode analogue of the member loop: consumes the current member
and the remaining compact members, closing at the brace. -/
theorem parse_members_loop_compact :
    ∀ (ps : List (List Char)),
      (∀ q ∈ ps, ∃ k2 vp2, q = jsonQuote k2 ++ ':' :: ' ' :: vp2 ∧
        (∃ c cs, vp2 = c :: cs ∧ isWsChar c = false) ∧
        (∀ f2 hp2 r2, stopTok r2 = true → vp2.length + 1 ≤ f2 →
          (parseCore f2 .val hp2 (vp2 ++ r2)).map PRes.rest = some r2)) →
      ∀ (k : String) (vp : List Char) (g : Nat) (acc : List (String × JVal)) (hp : Heap)
        (tail : List Char),
        (∃ c cs, vp = c :: cs ∧ isWsChar c = false) →
        (∀ f2 hp2 r2, stopTok r2 = true → vp.length + 1 ≤ f2 →
          (parseCore f2 .val hp2 (vp ++ r2)).map PRes.rest = some r2) →
        (jsonQuote k).length + vp.length + (membersTailC [] ps).length + 3 ≤ g →
        (parseCore g (.members acc) hp
          ((jsonQuote k ++ ':' :: ' ' :: vp) ++ membersTailC tail ps)).map PRes.rest =
          some tail := by
  intro ps
  induction ps with
  | nil =>
    intro hps k vp g acc hp tail hvph hvp hg
    obtain ⟨c, cs, hvpeq, hcw⟩ := hvph
    cases g with
    | zero => omega
    | succ g =>
      have hin : (jsonQuote k ++ ':' :: ' ' :: vp) ++ membersTailC tail [] =
          '"' :: ((k.data.map jsonEscapeChar).flatten ++
            '"' :: (':' :: ' ' :: (vp ++ membersTailC tail []))) := by
        simp [jsonQuote, List.append_assoc, List.cons_append]
      rw [hin, parseCore_members_unfold]
      have hesc := parseStringBody_escape k.data
        (':' :: ' ' :: (vp ++ membersTailC tail []))
      cases hpb : parseStringBody ((k.data.map jsonEscapeChar).flatten ++
          '"' :: (':' :: ' ' :: (vp ++ membersTailC tail []))) with
      | none => rw [hpb] at hesc; simp at hesc
      | some pk =>
        obtain ⟨kk, r1⟩ := pk
        rw [hpb] at hesc
        simp only [Option.map_some'] at hesc
        injection hesc with hesc
        try simp only at hesc
        subst hesc
        simp only [hpb]
        have hsk1 : skipWs (':' :: ' ' :: (vp ++ membersTailC tail [])) =
            ':' :: ' ' :: (vp ++ membersTailC tail []) :=
          skipWs_cons_not_ws _ _ (by decide)
        rw [hsk1]
        have hskip : skipWs (' ' :: (vp ++ membersTailC tail [])) =
            vp ++ membersTailC tail [] := by
          rw [show (' ' :: (vp ++ membersTailC tail []) : List Char) =
              ([' '] : List Char) ++ (vp ++ membersTailC tail []) from rfl]
          rw [skipWs_ws_append [' '] _ (by decide)]
          rw [show vp ++ membersTailC tail [] =
              c :: (cs ++ membersTailC tail []) from by rw [hvpeq]; simp]
          exact skipWs_cons_not_ws c _ hcw
        have hv := hvp g hp (membersTailC tail []) (stopTok_membersTailC _ _) (by omega)
        cases hpc : parseCore g .val hp (vp ++ membersTailC tail []) with
        | none => rw [hpc] at hv; simp at hv
        | some r =>
          obtain ⟨v, h2, r3⟩ := r
          rw [hpc] at hv
          simp only [Option.map_some'] at hv
          injection hv with hv
          try simp only at hv
          subst hv
          simp only [hskip, hpc]
          rw [show membersTailC tail ([] : List (List Char)) = '\x7d' :: tail from rfl]
          rw [skipWs_cons_not_ws '\x7d' tail (by decide)]
          simp
  | cons q2 qs ih =>
    intro hps k vp g acc hp tail hvph hvp hg
    obtain ⟨c, cs, hvpeq, hcw⟩ := hvph
    obtain ⟨k2, vp2, hq2eq, hvp2h, hvp2parse⟩ := hps q2 (List.mem_cons_self q2 qs)
    have hqs := fun q3 hq3 => hps q3 (List.mem_cons_of_mem q2 hq3)
    have hlen1 : (membersTailC [] (q2 :: qs)).length =
        q2.length + (membersTailC [] qs).length + 2 := by
      simp only [membersTailC, List.length_cons, List.length_append, List.length_nil]
      try omega
    have hq2len : q2.length = (jsonQuote k2).length + vp2.length + 2 := by
      rw [hq2eq]
      simp only [List.length_append, List.length_cons]
      try omega
    cases g with
    | zero => omega
    | succ g =>
      have hin : (jsonQuote k ++ ':' :: ' ' :: vp) ++ membersTailC tail (q2 :: qs) =
          '"' :: ((k.data.map jsonEscapeChar).flatten ++
            '"' :: (':' :: ' ' :: (vp ++ membersTailC tail (q2 :: qs)))) := by
        simp [jsonQuote, List.append_assoc, List.cons_append]
      rw [hin, parseCore_members_unfold]
      have hesc := parseStringBody_escape k.data
        (':' :: ' ' :: (vp ++ membersTailC tail (q2 :: qs)))
      cases hpb : parseStringBody ((k.data.map jsonEscapeChar).flatten ++
          '"' :: (':' :: ' ' :: (vp ++ membersTailC tail (q2 :: qs)))) with
      | none => rw [hpb] at hesc; simp at hesc
      | some pk =>
        obtain ⟨kk, r1⟩ := pk
        rw [hpb] at hesc
        simp only [Option.map_some'] at hesc
        injection hesc with hesc
        try simp only at hesc
        subst hesc
        simp only [hpb]
        have hsk1 : skipWs (':' :: ' ' :: (vp ++ membersTailC tail (q2 :: qs))) =
            ':' :: ' ' :: (vp ++ membersTailC tail (q2 :: qs)) :=
          skipWs_cons_not_ws _ _ (by decide)
        rw [hsk1]
        have hskip : skipWs (' ' :: (vp ++ membersTailC tail (q2 :: qs))) =
            vp ++ membersTailC tail (q2 :: qs) := by
          rw [show (' ' :: (vp ++ membersTailC tail (q2 :: qs)) : List Char) =
              ([' '] : List Char) ++ (vp ++ membersTailC tail (q2 :: qs)) from rfl]
          rw [skipWs_ws_append [' '] _ (by decide)]
          rw [show vp ++ membersTailC tail (q2 :: qs) =
              c :: (cs ++ membersTailC tail (q2 :: qs)) from by rw [hvpeq]; simp]
          exact skipWs_cons_not_ws c _ hcw
        have hv := hvp g hp (membersTailC tail (q2 :: qs)) (stopTok_membersTailC _ _)
          (by omega)
        cases hpc : parseCore g .val hp (vp ++ membersTailC tail (q2 :: qs)) with
        | none => rw [hpc] at hv; simp at hv
        | some r =>
          obtain ⟨v, h2, r3⟩ := r
          rw [hpc] at hv
          simp only [Option.map_some'] at hv
          injection hv with hv
          try simp only at hv
          subst hv
          simp only [hskip, hpc]
          rw [show membersTailC tail (q2 :: qs) =
              ',' :: ' ' :: q2 ++ membersTailC tail qs from rfl]
          have hsk2 : skipWs (',' :: ' ' :: q2 ++ membersTailC tail qs) =
              ',' :: ' ' :: q2 ++ membersTailC tail qs :=
            skipWs_cons_not_ws _ _ (by decide)
          rw [hsk2]
          have hskip2 : skipWs (' ' ::
                (jsonQuote k2 ++ ':' :: ' ' :: (vp2 ++ membersTailC tail qs))) =
              jsonQuote k2 ++ ':' :: ' ' :: (vp2 ++ membersTailC tail qs) := by
            rw [show (' ' :: (jsonQuote k2 ++ ':' :: ' ' :: (vp2 ++ membersTailC tail qs)) :
                List Char) = ([' '] : List Char) ++
                (jsonQuote k2 ++ ':' :: ' ' :: (vp2 ++ membersTailC tail qs)) from rfl]
            rw [skipWs_ws_append [' '] _ (by decide)]
            rw [show jsonQuote k2 ++ ':' :: ' ' :: (vp2 ++ membersTailC tail qs) =
                '"' :: (((k2.data.map jsonEscapeChar).flatten ++ ['"']) ++
                  (':' :: ' ' :: (vp2 ++ membersTailC tail qs))) from rfl]
            exact skipWs_cons_not_ws '"' _ (by decide)
          have hmain := ih hqs k2 vp2 g (acc ++ [(String.mk kk, v)]) h2 tail hvp2h hvp2parse
            (by omega)
          simpa [hskip2, hq2eq] using hmain

/-- A compact two-string-member object followed by arbitrary input parses
as one value, consuming exactly the object. -/
theorem parse_two_member_obj (f : Nat) (hp : Heap) (k1 v1 k2 v2 : String) (rest : List Char)
    (hf : (jsonQuote k1).length + (jsonQuote v1).length + (jsonQuote k2).length +
      (jsonQuote v2).length + 9 ≤ f) :
    (parseCore f .val hp (('\x7b' :: ((jsonQuote k1 ++ ':' :: ' ' :: jsonQuote v1) ++
      ',' :: ' ' :: (jsonQuote k2 ++ ':' :: ' ' :: jsonQuote v2)) ++ ['\x7d']) ++ rest)).map
      PRes.rest = some rest := by
  cases f with
  | zero => omega
  | succ f =>
    have hin : (('\x7b' :: ((jsonQuote k1 ++ ':' :: ' ' :: jsonQuote v1) ++
        ',' :: ' ' :: (jsonQuote k2 ++ ':' :: ' ' :: jsonQuote v2)) ++ ['\x7d']) ++ rest :
        List Char) = '\x7b' :: ((jsonQuote k1 ++ ':' :: ' ' :: jsonQuote v1) ++
          membersTailC rest [jsonQuote k2 ++ ':' :: ' ' :: jsonQuote v2]) := by
      simp [membersTailC, jsonQuote, List.append_assoc, List.cons_append]
    rw [hin]
    have hhead : (jsonQuote k1 ++ ':' :: ' ' :: jsonQuote v1) ++
        membersTailC rest [jsonQuote k2 ++ ':' :: ' ' :: jsonQuote v2] =
        '"' :: ((((k1.data.map jsonEscapeChar).flatten ++ ['"']) ++
          (':' :: ' ' :: jsonQuote v1)) ++
            membersTailC rest [jsonQuote k2 ++ ':' :: ' ' :: jsonQuote v2]) := rfl
    rw [parseCore_val_lbrace_go f hp _ _ '"'
      (by rw [hhead]; exact skipWs_cons_not_ws '"' _ (by decide)) (by decide)]
    rw [← hhead]
    have hqv1 : ∃ c cs, jsonQuote v1 = c :: cs ∧ isWsChar c = false :=
      ⟨'"', (v1.data.map jsonEscapeChar).flatten ++ ['"'], rfl, by decide⟩
    have hqv1parse : ∀ f2 hp2 r2, stopTok r2 = true → (jsonQuote v1).length + 1 ≤ f2 →
        (parseCore f2 .val hp2 (jsonQuote v1 ++ r2)).map PRes.rest = some r2 := by
      intro f2 hp2 r2 hstop hf2
      cases f2 with
      | zero => omega
      | succ f2 => exact parseCore_val_str f2 hp2 v1 r2
    have hps : ∀ q ∈ [jsonQuote k2 ++ ':' :: ' ' :: jsonQuote v2],
        ∃ k3 vp3, q = jsonQuote k3 ++ ':' :: ' ' :: vp3 ∧
        (∃ c cs, vp3 = c :: cs ∧ isWsChar c = false) ∧
        (∀ f2 hp2 r2, stopTok r2 = true → vp3.length + 1 ≤ f2 →
          (parseCore f2 .val hp2 (vp3 ++ r2)).map PRes.rest = some r2) := by
      intro q hq
      rw [List.mem_singleton] at hq
      subst hq
      refine ⟨k2, jsonQuote v2, rfl,
        ⟨'"', (v2.data.map jsonEscapeChar).flatten ++ ['"'], rfl, by decide⟩, ?_⟩
      intro f2 hp2 r2 hstop hf2
      cases f2 with
      | zero => omega
      | succ f2 => exact parseCore_val_str f2 hp2 v2 r2
    have hlenC : (membersTailC ([] : List Char)
        [jsonQuote k2 ++ ':' :: ' ' :: jsonQuote v2]).length =
        (jsonQuote k2).length + (jsonQuote v2).length + 5 := by
      simp only [membersTailC, List.length_cons, List.length_append, List.length_nil]
      try omega
    exact parse_members_loop_compact [jsonQuote k2 ++ ':' :: ' ' :: jsonQuote v2] hps
      k1 (jsonQuote v1) f [] hp rest hqv1 hqv1parse (by omega)

/-- Every successful pretty `json.dumps` output of a float-free value is
accepted by the validator. -/
theorem validateJson_of_dumps (h : Heap) (hnf : heapNoFloat h = true) (v : JVal)
    (hv : jvNoFloat v = true) (s : String) (hd : dumps h true v = some s) :
    validateJson s = true := by
  rw [dumps, Option.map_eq_some'] at hd
  obtain ⟨cs, hdv, hsmk⟩ := hd
  subst hsmk
  obtain ⟨⟨c, cs2, hceq, hcw, _, _⟩, hparse⟩ := parse_dumpVal h hnf _ [] 0 v cs hv hdv
  have hskip : skipWs (String.mk cs).data = cs := by
    show skipWs cs = cs
    rw [hceq]
    exact skipWs_cons_not_ws c cs2 hcw
  have hp := hparse (cs.length + 1) [] [] (by decide) (by omega)
  rw [List.append_nil] at hp
  simp only [validateJson, parseFull, hskip]
  cases hpc : parseCore (cs.length + 1) .val [] cs with
  | none => rw [hpc] at hp; simp at hp
  | some r =>
    obtain ⟨v2, h2, r2⟩ := r
    rw [hpc] at hp
    simp only [Option.map_some'] at hp
    injection hp with hp
    try simp only at hp
    subst hp
    simp [skipWs]

/-- The compact serialization of a two-string-field dict is valid JSON. -/
theorem validate_wrap_obj (k1 v1 k2 v2 : String) :
    validateJson (String.mk ('\x7b' :: ((jsonQuote k1 ++ ':' :: ' ' :: jsonQuote v1) ++
      ',' :: ' ' :: (jsonQuote k2 ++ ':' :: ' ' :: jsonQuote v2)) ++ ['\x7d'])) = true := by
  have hlen : ('\x7b' :: ((jsonQuote k1 ++ ':' :: ' ' :: jsonQuote v1) ++
      ',' :: ' ' :: (jsonQuote k2 ++ ':' :: ' ' :: jsonQuote v2)) ++ ['\x7d'] :
      List Char).length = (jsonQuote k1).length + (jsonQuote v1).length +
      (jsonQuote k2).length + (jsonQuote v2).length + 8 := by
    simp only [List.length_cons, List.length_append, List.length_nil]
    try omega
  have hskip : skipWs ('\x7b' :: ((jsonQuote k1 ++ ':' :: ' ' :: jsonQuote v1) ++
      ',' :: ' ' :: (jsonQuote k2 ++ ':' :: ' ' :: jsonQuote v2)) ++ ['\x7d']) =
      '\x7b' :: ((jsonQuote k1 ++ ':' :: ' ' :: jsonQuote v1) ++
      ',' :: ' ' :: (jsonQuote k2 ++ ':' :: ' ' :: jsonQuote v2)) ++ ['\x7d'] :=
    skipWs_cons_not_ws _ _ (by decide)
  have hp := parse_two_member_obj (('\x7b' :: ((jsonQuote k1 ++ ':' :: ' ' ::
      jsonQuote v1) ++ ',' :: ' ' :: (jsonQuote k2 ++ ':' :: ' ' :: jsonQuote v2)) ++
      ['\x7d'] : List Char).length + 1) [] k1 v1 k2 v2 [] (by omega)
  rw [List.append_nil] at hp
  simp only [validateJson, parseFull, hskip]
  cases hpc : parseCore (('\x7b' :: ((jsonQuote k1 ++ ':' :: ' ' :: jsonQuote v1) ++
      ',' :: ' ' :: (jsonQuote k2 ++ ':' :: ' ' :: jsonQuote v2)) ++ ['\x7d'] :
      List Char).length + 1) .val []
      ('\x7b' :: ((jsonQuote k1 ++ ':' :: ' ' :: jsonQuote v1) ++
      ',' :: ' ' :: (jsonQuote k2 ++ ':' :: ' ' :: jsonQuote v2)) ++ ['\x7d']) with
  | none => rw [hpc] at hp; simp at hp
  | some r =>
    obtain ⟨v2x, h2, r2⟩ := r
    rw [hpc] at hp
    simp only [Option.map_some'] at hp
    injection hp with hp
    try simp only at hp
    subst hp
    simp [skipWs]

/-- The serialization of an integer is valid JSON. -/
theorem validateJson_num (n : Int) : validateJson (String.mk (pyIntRepr n)) = true := by
  have hhead : ∃ c cs, pyIntRepr n = c :: cs ∧ isWsChar c = false := by
    cases n with
    | ofNat m =>
      obtain ⟨hall, c, cs, heq, hcd, hcz⟩ := natDigits_spec m
      exact ⟨c, cs, heq, (digit_char_facts hcd).2.2.2.2.2.2.1⟩
    | negSucc m => exact ⟨'-', natDigits (m + 1), rfl, by decide⟩
  obtain ⟨c, cs, hceq, hcw⟩ := hhead
  have hskip : skipWs (String.mk (pyIntRepr n)).data = pyIntRepr n := by
    show skipWs (pyIntRepr n) = pyIntRepr n
    rw [hceq]
    exact skipWs_cons_not_ws c cs hcw
  have hp := parseCore_val_int ((pyIntRepr n).length) [] n [] (by decide)
  rw [List.append_nil] at hp
  simp only [validateJson, parseFull, hskip]
  cases hpc : parseCore ((pyIntRepr n).length + 1) .val [] (pyIntRepr n) with
  | none => rw [hpc] at hp; simp at hp
  | some r =>
    obtain ⟨v2, h2, r2⟩ := r
    rw [hpc] at hp
    simp only [Option.map_some'] at hp
    injection hp with hp
    try simp only at hp
    subst hp
    simp [skipWs]

/-- C3: canonical rendering is idempotent — for every value of the claim
(strings, dicts, lists, integers, booleans, null, i.e. float-free),
applying `format_response` with the JSON format to its own output returns
that output unchanged. -/
theorem render_canonical_idempotent (h h2 : Heap) (x : JVal) (s : String)
    (hnf : heapNoFloat h = true) (hx : jvNoFloat x = true)
    (hr : format_response h x (.fmt .json) = .ok s) :
    format_response h2 (.str s) (.fmt .json) = .ok s := by
  have hval : validateJson s = true := by
    cases x with
    | null =>
      have he : format_response h .null (.fmt .json) = .ok "null" := by
        simp [format_response, formatArgIsValid, formatArgEq, dumpScalarJson]
      rw [he] at hr
      injection hr with hr
      subst hr
      decide
    | bool b =>
      cases b with
      | true =>
        have he : format_response h (.bool true) (.fmt .json) = .ok "true" := by
          simp [format_response, formatArgIsValid, formatArgEq, dumpScalarJson]
        rw [he] at hr
        injection hr with hr
        subst hr
        decide
      | false =>
        have he : format_response h (.bool false) (.fmt .json) = .ok "false" := by
          simp [format_response, formatArgIsValid, formatArgEq, dumpScalarJson]
        rw [he] at hr
        injection hr with hr
        subst hr
        decide
    | num n =>
      have he : format_response h (.num n) (.fmt .json) = .ok (String.mk (pyIntRepr n)) := by
        simp [format_response, formatArgIsValid, formatArgEq, dumpScalarJson]
      rw [he] at hr
      injection hr with hr
      subst hr
      exact validateJson_num n
    | pyfloat lit => exact absurd hx (by simp [jvNoFloat])
    | str s0 =>
      by_cases hv0 : validateJson s0 = true
      · have he : format_response h (.str s0) (.fmt .json) = .ok s0 := by
          simp [format_response, formatArgIsValid, formatArgEq, hv0]
        rw [he] at hr
        injection hr with hr
        subst hr
        exact hv0
      · have hv0f : validateJson s0 = false := by
          cases hb : validateJson s0 with
          | true => exact absurd hb hv0
          | false => rfl
        have he : format_response h (.str s0) (.fmt .json) =
            .ok (String.mk ('\x7b' :: ((jsonQuote "error" ++ ':' :: ' ' ::
              jsonQuote "Invalid JSON content") ++ ',' :: ' ' ::
              (jsonQuote "raw_content" ++ ':' :: ' ' :: jsonQuote s0)) ++ ['\x7d'])) := by
          simp [format_response, formatArgIsValid, formatArgEq, hv0f, freshObjDump_two_str]
        rw [he] at hr
        injection hr with hr
        subst hr
        exact validate_wrap_obj "error" "Invalid JSON content" "raw_content" s0
    | ref a =>
      cases hdp : dumps h true (.ref a) with
      | some s2 =>
        have he : format_response h (.ref a) (.fmt .json) = .ok s2 := by
          simp [format_response, formatArgIsValid, formatArgEq, hdp]
        rw [he] at hr
        injection hr with hr
        subst hr
        exact validateJson_of_dumps h hnf (.ref a) hx s2 hdp
      | none =>
        have he : format_response h (.ref a) (.fmt .json) =
            .ok (String.mk ('\x7b' :: ((jsonQuote "error" ++ ':' :: ' ' ::
              jsonQuote "Failed to serialize content") ++ ',' :: ' ' ::
              (jsonQuote "details" ++ ':' :: ' ' :: jsonQuote serializeErrorDetails)) ++
              ['\x7d'])) := by
          simp [format_response, formatArgIsValid, formatArgEq, hdp, freshObjDump_two_str]
        rw [he] at hr
        injection hr with hr
        subst hr
        exact validate_wrap_obj "error" "Failed to serialize content" "details"
          serializeErrorDetails
  simp [format_response, formatArgIsValid, formatArgEq, hval]

/-- Witness for C3: rendering the integer 7 canonically yields "7", and
rendering that output again returns it unchanged. -/
theorem render_canonical_idempotent_witness :
    heapNoFloat ([] : Heap) = true ∧ jvNoFloat (JVal.num 7) = true ∧
    format_response [] (JVal.num 7) (.fmt .json) = .ok "7" ∧
    format_response [] (.str "7") (.fmt .json) = .ok "7" :=
  ⟨rfl, rfl, by decide,
    render_canonical_idempotent [] [] (JVal.num 7) "7" rfl rfl (by decide)⟩

end McpOllama

